import Mathlib

/-!
Verification of the Shape Analysis and Cutting-Line Geometry Engine
(src/domain/calculator/shape_analyzer.py and
src/domain/calculator/cutting_line_generator.py) against its
natural-language specification.

The Python code is shallowly embedded: images are finite rasters of
natural-number pixel values, floating point numbers are modelled by exact
rationals, and the OpenCV library calls the code relies on (GaussianBlur,
threshold, getStructuringElement, dilate/erode, findContours, contourArea,
arcLength, boundingRect, approxPolyDP, drawContours fill) are modelled by
executable Lean functions following the documented OpenCV semantics.
Floating-point idealisations are noted at each definition: Python round is
round-half-even, float literals such as 0.1 and 0.95 become the rationals
they denote, math.pi becomes its IEEE-double decimal value, and square
roots are computed to 2^-20 precision (exact on perfect squares).
-/

set_option maxRecDepth 1000000
set_option linter.unusedVariables false

/-! ## Numeric utilities -/

/-- Fuel-driven binary search for the integer square root: `isqrtGo n fuel lo hi`
keeps the invariant `lo^2 ≤ n < hi^2` and narrows `[lo, hi)` by bisection. -/
def isqrtGo (n : Nat) : Nat → Nat → Nat → Nat
  | 0, lo, _ => lo
  | fuel+1, lo, hi =>
    if hi ≤ lo + 1 then lo
    else
      let mid := (lo + hi) / 2
      if mid * mid ≤ n then isqrtGo n fuel mid hi else isqrtGo n fuel lo mid

/-- Integer square root (largest `s` with `s*s ≤ n`), kernel-computable. -/
def isqrt (n : Nat) : Nat := isqrtGo n (n + 1) 0 (n + 1)

/-- Python `int()` on a rational: truncation toward zero. -/
def pyInt (q : ℚ) : ℤ := if 0 ≤ q then ⌊q⌋ else -⌊-q⌋

/-- Python `math.ceil`. -/
def pyCeil (q : ℚ) : ℤ := ⌈q⌉

/-- Round a rational to the nearest integer, ties to even: the rounding used
by Python's builtin `round`. -/
def rndHalfEven (q : ℚ) : ℤ :=
  let f := ⌊q⌋
  let r := q - (f : ℚ)
  if r < 1/2 then f
  else if 1/2 < r then f + 1
  else if f % 2 = 0 then f else f + 1

/-- Python `round(q, n)` (round-half-even at the n-th decimal). -/
def pyRound (q : ℚ) (n : ℕ) : ℚ := (rndHalfEven (q * 10 ^ n) : ℚ) / 10 ^ n

/-- Square root on rationals, modelling the float square root used by
`np.sqrt`/`cv2.arcLength`: computed to 2^-20 absolute precision, exact on
perfect squares of naturals. -/
def ratSqrt (q : ℚ) : ℚ :=
  if q ≤ 0 then 0 else ((isqrt (⌊q * 4 ^ 20⌋).toNat : ℚ)) / 2 ^ 20

/-- The value of Python's `math.pi` (an IEEE double), as the rational its
decimal rendering denotes. -/
def mathPi : ℚ := 3.141592653589793

/-! ## Rasters

A `GrayImg` is a single-channel raster (masks hold only 0 and 255); a
`ColorImg` is a three-channel BGR raster, one `(b, g, r)` triple per pixel.
Out-of-range reads return 0 (black), as the embedding only reads inside
bounds except where an explicit border mode is modelled. -/

structure GrayImg where
  h : ℕ
  w : ℕ
  data : List (List ℕ)


def GrayImg.px (m : GrayImg) (y x : ℕ) : ℕ :=
  (m.data.getD y []).getD x 0

structure ColorImg where
  h : ℕ
  w : ℕ
  data : List (List (ℕ × ℕ × ℕ))


def ColorImg.px (m : ColorImg) (y x : ℕ) : ℕ × ℕ × ℕ :=
  (m.data.getD y []).getD x (0, 0, 0)

/-- Build a grayscale raster of size h×w from a pixel formula. -/
def mkGray (h w : ℕ) (f : ℕ → ℕ → ℕ) : GrayImg :=
  ⟨h, w, (List.range h).map (fun y => (List.range w).map (fun x => f y x))⟩

/-- Number of nonzero pixels (`np.count_nonzero`). -/
def countNonzero (m : GrayImg) : ℕ :=
  m.data.foldr (fun row acc => row.foldr (fun v a => (if v ≠ 0 then 1 else 0) + a) 0 + acc) 0

/-- cv2's default `BORDER_REFLECT_101` index reflection (`-1 ↦ 1`, `n ↦ n-2`),
adequate for the kernel overhangs that occur (less than the image size). -/
def reflect101 (n : ℕ) (i : ℤ) : ℕ :=
  if i < 0 then (-i).toNat
  else if (n : ℤ) ≤ i then 2 * n - 2 - i.toNat
  else i.toNat

/-- Pixel read with both coordinates reflected at the border. -/
def pxRefl (m : GrayImg) (y x : ℤ) : ℕ :=
  m.px (reflect101 m.h y) (reflect101 m.w x)

/-- Pixel read treating out-of-bounds as 0 (used by dilation, whose constant
border must not contribute to the maximum). -/
def pxZero (m : GrayImg) (y x : ℤ) : ℕ :=
  if 0 ≤ y ∧ y < (m.h : ℤ) ∧ 0 ≤ x ∧ x < (m.w : ℤ) then m.px y.toNat x.toNat else 0

/-- Pixel read treating out-of-bounds as 255 (used by erosion). -/
def pxFull (m : GrayImg) (y x : ℤ) : ℕ :=
  if 0 ≤ y ∧ y < (m.h : ℤ) ∧ 0 ≤ x ∧ x < (m.w : ℤ) then m.px y.toNat x.toNat else 255

/-- The 1-D Gaussian kernel `cv2.getGaussianKernel(k, 0)` scaled to integers:
for k ≤ 7, OpenCV's fixed small-kernel table (all entries are 64ths for k=7,
16ths for k=5, 4ths for k=3); larger kernels (reachable only for images at
least 480 pixels on a side, which no claim exercises) are approximated by the
binomial row. -/
def gaussTaps (k : ℕ) : List ℕ :=
  if k = 3 then [1, 2, 1]
  else if k = 5 then [1, 4, 6, 4, 1]
  else if k = 7 then [2, 7, 14, 18, 14, 7, 2]
  else (List.range k).map (fun i => Nat.choose (k - 1) i)

/-- Horizontal pass of the separable Gaussian filter: raw weighted sums
(the fixed-point intermediate OpenCV keeps unrounded between the passes). -/
def gaussRow (k : ℕ) (m : GrayImg) : GrayImg :=
  let taps := gaussTaps k
  let c := (k / 2 : ℤ)
  mkGray m.h m.w (fun y x =>
    (taps.enum.foldl (fun acc t => acc + t.2 * pxRefl m (y : ℤ) ((x : ℤ) + (t.1 : ℤ) - c)) 0))

/-- `cv2.GaussianBlur(m, (k, k), 0)`: separable filter with reflected border,
rounding once at the end as OpenCV's fixed-point path does
(`(sum + D²/2) / D²` is round-half-up of `sum / D²`). -/
def gaussianBlur (k : ℕ) (m : GrayImg) : GrayImg :=
  let taps := gaussTaps k
  let c := (k / 2 : ℤ)
  let d := taps.sum
  let rowed := gaussRow k m
  mkGray m.h m.w (fun y x =>
    (taps.enum.foldl (fun acc t =>
      acc + t.2 * (rowed.data.getD (reflect101 m.h ((y : ℤ) + (t.1 : ℤ) - c)) []).getD x 0) 0
      + d * d / 2) / (d * d))

/-- `cv2.threshold(m, t, maxv, cv2.THRESH_BINARY)`: strictly-above-t pixels
become maxv, the rest 0. -/
def thresholdBin (t maxv : ℕ) (m : GrayImg) : GrayImg :=
  mkGray m.h m.w (fun y x => if t < m.px y x then maxv else 0)

/-- `cv2.bitwise_not` on an 8-bit mask. -/
def bitwiseNot (m : GrayImg) : GrayImg :=
  mkGray m.h m.w (fun y x => 255 - m.px y x)

/-! ## Morphology -/

/-- Round-half-up of the square root of a natural (the `saturate_cast` of the
float square root OpenCV takes when rasterising the elliptical structuring
element; half-way cases, which never arise there, round up). -/
def rsqrtHalfUp (v : ℕ) : ℕ :=
  let s := isqrt v
  if (2 * s + 1) * (2 * s + 1) ≤ 4 * v then s + 1 else s

/-- Offsets (δy, δx) of `cv2.getStructuringElement(cv2.MORPH_ELLIPSE, (k, k))`
relative to the central anchor, following OpenCV's row-wise rasterisation:
row i covers columns `r ± round(sqrt(r² - dy²))`. -/
def ellipseRow (k i : ℕ) : List (ℤ × ℤ) :=
  let r := k / 2
  let dy : ℤ := (i : ℤ) - (r : ℤ)
  let dx : ℕ := rsqrtHalfUp ((r * r : ℤ) - dy * dy).toNat
  let j1 : ℕ := r - dx
  let j2 : ℕ := min (r + dx + 1) k
  (List.range (j2 - j1)).map (fun t => (dy, ((j1 + t : ℕ) : ℤ) - (r : ℤ)))

def ellipseOffsets (k : ℕ) : List (ℤ × ℤ) :=
  (List.range k).foldr (fun i acc => ellipseRow k i ++ acc) []

/-- `cv2.dilate` with one application of the structuring element: maximum of
the input over the (symmetric) kernel footprint, border pixels ignored. -/
def dilateK (offs : List (ℤ × ℤ)) (m : GrayImg) : GrayImg :=
  mkGray m.h m.w (fun y x =>
    offs.foldr (fun o acc => max (pxZero m ((y : ℤ) + o.1) ((x : ℤ) + o.2)) acc) 0)

/-- `cv2.erode`: minimum over the kernel footprint, border treated as 255. -/
def erodeK (offs : List (ℤ × ℤ)) (m : GrayImg) : GrayImg :=
  mkGray m.h m.w (fun y x =>
    offs.foldr (fun o acc => min (pxFull m ((y : ℤ) + o.1) ((x : ℤ) + o.2)) acc) 255)

/-- `cv2.morphologyEx(m, cv2.MORPH_OPEN, kern)`: erosion then dilation. -/
def morphOpen (offs : List (ℤ × ℤ)) (m : GrayImg) : GrayImg :=
  dilateK offs (erodeK offs m)

/-- `cv2.morphologyEx(m, cv2.MORPH_CLOSE, kern)`: dilation then erosion. -/
def morphClose (offs : List (ℤ × ℤ)) (m : GrayImg) : GrayImg :=
  erodeK offs (dilateK offs m)

/-! ## Contours

`cv2.findContours(mask, cv2.RETR_EXTERNAL, cv2.CHAIN_APPROX_SIMPLE)` is
modelled as: enumerate the 8-connected components of the nonzero pixels in
raster order of their first pixel, follow each component's outer border by
Moore-neighbour tracing from that pixel (counterclockwise, matching the point
order OpenCV emits), and compress maximal straight runs to their endpoints
(CHAIN_APPROX_SIMPLE). A contour is a list of (x, y) pixel-centre points. -/

def Contour := List (ℤ × ℤ)
deriving Inhabited

/-- Foreground test on a pixel key (row-major index). -/
def fgKey (m : GrayImg) (k : ℕ) : Bool := m.px (k / m.w) (k % m.w) != 0

/-- In-bounds 8-neighbourhood of a pixel key. -/
def neighKeys (m : GrayImg) (k : ℕ) : List ℕ :=
  let y := (k / m.w : ℤ)
  let x := (k % m.w : ℤ)
  ([(-1,-1),(-1,0),(-1,1),(0,-1),(0,1),(1,-1),(1,0),(1,1)] : List (ℤ × ℤ)).filterMap
    (fun d =>
      let ny := y + d.1
      let nx := x + d.2
      if 0 ≤ ny ∧ ny < (m.h : ℤ) ∧ 0 ≤ nx ∧ nx < (m.w : ℤ) then
        some (ny.toNat * m.w + nx.toNat)
      else none)

/-- Breadth-first closure, one frontier level per fuel step: the 8-connected
component of the seed frontier within the foreground. -/
def bfsLevels (m : GrayImg) : ℕ → List ℕ → List ℕ → List ℕ
  | 0, _, visited => visited
  | fuel+1, frontier, visited =>
    if frontier.isEmpty then visited
    else
      let seen := visited ++ frontier
      let next := (frontier.foldr (fun k acc =>
        (neighKeys m k).filter (fun n => fgKey m n && !(seen.contains n)) ++ acc) []).dedup
      bfsLevels m fuel next seen

/-- The 8-connected foreground component containing pixel key `k`. -/
def componentOf (m : GrayImg) (k : ℕ) : List ℕ :=
  bfsLevels m (m.h * m.w + 1) [k] []

/-- First pixel keys (raster order) of the foreground components. -/
def compStarts (m : GrayImg) : List ℕ :=
  ((List.range (m.h * m.w)).foldl (fun st k =>
    if fgKey m k && !(st.2.contains k) then
      (st.1 ++ [k], st.2 ++ componentOf m k)
    else st) (([], []) : List ℕ × List ℕ)).1

/-- The Moore-neighbourhood directions in counterclockwise order (image
coordinates, y growing downward), as (δx, δy), starting from west. -/
def mooreDirs : List (ℤ × ℤ) :=
  [(-1,0), (-1,1), (0,1), (1,1), (1,0), (1,-1), (0,-1), (-1,-1)]

def dirIndexOf (v : ℤ × ℤ) : ℕ :=
  (mooreDirs.enum.foldl (fun acc e => if e.2 = v then e.1 else acc) 0)

def movePt (p : ℤ × ℤ) (d : ℕ) : ℤ × ℤ :=
  let v := mooreDirs.getD (d % 8) (0, 0)
  (p.1 + v.1, p.2 + v.2)

/-- Foreground test on an (x, y) point, out-of-bounds background. -/
def fgPt (m : GrayImg) (p : ℤ × ℤ) : Bool :=
  pxZero m p.2 p.1 != 0

/-- One step of Moore-neighbour border following with backtracking: scan the
8 neighbours of `cur` counterclockwise starting just after the backtrack cell
`prev`; the first foreground cell found is the next border pixel, and the
background cell scanned just before it is the next backtrack cell. -/
def mooreNext (m : GrayImg) (cur prev : ℤ × ℤ) : Option ((ℤ × ℤ) × (ℤ × ℤ)) :=
  let b := dirIndexOf (prev.1 - cur.1, prev.2 - cur.2)
  (List.range 8).foldl (fun acc i =>
    match acc with
    | some r => some r
    | none =>
      let p := movePt cur (b + 1 + i)
      if fgPt m p then some (p, movePt cur (b + i)) else none) none

/-- Border following from the state reached by the first step until that
state recurs (the deterministic border cycle has closed), fuel-bounded. -/
def traceLoop (m : GrayImg) (stop : (ℤ × ℤ) × (ℤ × ℤ)) :
    ℕ → ((ℤ × ℤ) × (ℤ × ℤ)) → List (ℤ × ℤ) → List (ℤ × ℤ)
  | 0, _, acc => acc.reverse
  | fuel+1, cur, acc =>
    match mooreNext m cur.1 cur.2 with
    | none => acc.reverse
    | some s =>
      if s = stop then acc.reverse else traceLoop m stop fuel s (s.1 :: acc)

/-- The traced outer border of the component whose first raster pixel is `k`
(its west neighbour is necessarily background, so the scan starts there). -/
def traceFrom (m : GrayImg) (k : ℕ) : List (ℤ × ℤ) :=
  let p0 : ℤ × ℤ := ((k % m.w : ℕ), (k / m.w : ℕ))
  let prev0 : ℤ × ℤ := (p0.1 - 1, p0.2)
  match mooreNext m p0 prev0 with
  | none => [p0]
  | some s1 =>
    let t := p0 :: s1.1 :: traceLoop m s1 (4 * (m.h * m.w) + 8) s1 []
    if t.getLast? = some p0 then t.dropLast else t

/-- CHAIN_APPROX_SIMPLE: drop every point whose incoming and outgoing steps
are equal (interior of a straight run), cyclically. -/
def compressSimple (pts : List (ℤ × ℤ)) : List (ℤ × ℤ) :=
  let n := pts.length
  if n ≤ 2 then pts
  else
    (List.range n).filterMap (fun i =>
      let p := pts.getD ((i + n - 1) % n) (0, 0)
      let q := pts.getD i (0, 0)
      let r := pts.getD ((i + 1) % n) (0, 0)
      if (q.1 - p.1, q.2 - p.2) = (r.1 - q.1, r.2 - q.2) then none else some q)

def findContours (m : GrayImg) : List Contour :=
  (compStarts m).map (fun k => compressSimple (traceFrom m k))

/-- `cv2.contourArea` (default `oriented=False`): absolute value of the
shoelace sum over the closed polygon, halved. -/
def contourArea (c : Contour) : ℚ :=
  let n := c.length
  let s : ℤ := (List.range n).foldl (fun acc i =>
    let p := c.getD i (0, 0)
    let q := c.getD ((i + 1) % n) (0, 0)
    acc + (p.1 * q.2 - q.1 * p.2)) 0
  (s.natAbs : ℚ) / 2

/-- `cv2.arcLength(c, closed=True)`: sum of Euclidean segment lengths. -/
def arcLength (c : Contour) : ℚ :=
  let n := c.length
  (List.range n).foldl (fun acc i =>
    let p := c.getD i (0, 0)
    let q := c.getD ((i + 1) % n) (0, 0)
    acc + ratSqrt ((((q.1 - p.1) ^ 2 + (q.2 - p.2) ^ 2 : ℤ)) : ℚ)) 0

structure BRect where
  x : ℤ
  y : ℤ
  bw : ℕ
  bh : ℕ


/-- `cv2.boundingRect`: the smallest axis-aligned pixel rectangle containing
the contour (width and height count pixels, hence the `+ 1`). -/
def boundingRect (c : Contour) : BRect :=
  match c with
  | [] => ⟨0, 0, 0, 0⟩
  | p :: rest =>
    let minx := rest.foldl (fun a q => min a q.1) p.1
    let maxx := rest.foldl (fun a q => max a q.1) p.1
    let miny := rest.foldl (fun a q => min a q.2) p.2
    let maxy := rest.foldl (fun a q => max a q.2) p.2
    ⟨minx, miny, (maxx - minx + 1).toNat, (maxy - miny + 1).toNat⟩

/-- Squared distance from `p` to the line through `a` and `b` (point distance
when `a = b`), the measure Douglas-Peucker compares against epsilon. -/
def lineDistSq (a b p : ℤ × ℤ) : ℚ :=
  let dx := b.1 - a.1
  let dy := b.2 - a.2
  let len2 := dx ^ 2 + dy ^ 2
  if len2 = 0 then (((p.1 - a.1) ^ 2 + (p.2 - a.2) ^ 2 : ℤ) : ℚ)
  else ((((p.1 - a.1) * dy - (p.2 - a.2) * dx) ^ 2 : ℤ) : ℚ) / (len2 : ℚ)

/-- Index and value of the first maximal entry (like `np.argmax`). -/
def argmaxIdx (l : List ℚ) : ℕ × ℚ :=
  l.enum.foldl (fun b e => if b.2 < e.2 then e else b) (0, l.headD 0)

/-- First index of the maximal entry of a list of naturals (`np.argmax`). -/
def argmaxNat (l : List ℕ) : ℕ :=
  (l.enum.foldl (fun b e => if b.2 < e.2 then e else b) (0, l.headD 0)).1

/-- Recursive half of Douglas-Peucker: simplify the open run `pts` strictly
between anchors `a` and `b`. -/
def dpSide (eps2 : ℚ) : ℕ → (ℤ × ℤ) → (ℤ × ℤ) → List (ℤ × ℤ) → List (ℤ × ℤ)
  | 0, _, _, _ => []
  | fuel+1, a, b, pts =>
    let dists := pts.map (lineDistSq a b)
    let (i, dmax) := argmaxIdx dists
    if pts.isEmpty ∨ dmax ≤ eps2 then []
    else
      let p := pts.getD i (0, 0)
      dpSide eps2 fuel a p (pts.take i) ++ p :: dpSide eps2 fuel p b (pts.drop (i + 1))

/-- `cv2.approxPolyDP(c, eps, closed=True)`: Douglas-Peucker simplification of
the closed curve, anchored at the first point and the point farthest from it
(the classical closed-curve formulation; OpenCV's in-house variant can differ
on borderline points, and no settled claim depends on those). -/
def approxPolyDP (pts : List (ℤ × ℤ)) (eps : ℚ) : List (ℤ × ℤ) :=
  if pts.length < 3 then pts
  else
    let p0 := pts.headD (0, 0)
    let (i1, _) := argmaxIdx (pts.map (fun p => (((p.1 - p0.1) ^ 2 + (p.2 - p0.2) ^ 2 : ℤ) : ℚ)))
    if i1 = 0 then pts
    else
      let p1 := pts.getD i1 (0, 0)
      let eps2 := eps * eps
      let fuel := pts.length + 1
      p0 :: dpSide eps2 fuel p0 p1 ((pts.take i1).drop 1) ++
        p1 :: dpSide eps2 fuel p1 p0 (pts.drop (i1 + 1))

/-- Whether point `p` lies on the closed segment from `a` to `b`. -/
def onSegment (a b p : ℤ × ℤ) : Bool :=
  (b.1 - a.1) * (p.2 - a.2) == (b.2 - a.2) * (p.1 - a.1) &&
  min a.1 b.1 ≤ p.1 && p.1 ≤ max a.1 b.1 &&
  min a.2 b.2 ≤ p.2 && p.2 ≤ max a.2 b.2

/-- Even-odd ray-crossing test plus boundary membership: the filled region of
`cv2.drawContours(img, [c], -1, colour, -1)` for the border polygons that
arise here. -/
def pointInPoly (c : Contour) (p : ℤ × ℤ) : Bool :=
  let n := c.length
  let onB := (List.range n).any (fun i =>
    onSegment (c.getD i (0, 0)) (c.getD ((i + 1) % n) (0, 0)) p)
  let crossings := (List.range n).foldl (fun acc i =>
    let a := c.getD i (0, 0)
    let b := c.getD ((i + 1) % n) (0, 0)
    let d := b.2 - a.2
    if d ≠ 0 ∧ ((a.2 ≤ p.2 ∧ p.2 < b.2) ∨ (b.2 ≤ p.2 ∧ p.2 < a.2)) then
      let lhs := (p.1 - a.1) * d
      let rhs := (p.2 - a.2) * (b.1 - a.1)
      if (0 < d ∧ lhs < rhs) ∨ (d < 0 ∧ rhs < lhs) then acc + 1 else acc
    else acc) 0
  onB || crossings % 2 == 1

/-- Rasterise a contour into a fresh h×w mask, filled
(`np.zeros` then `cv2.drawContours(..., 255, -1)`). -/
def fillContour (h w : ℕ) (c : Contour) : GrayImg :=
  mkGray h w (fun y x => if pointInPoly c ((x : ℤ), (y : ℤ)) then 255 else 0)

/-! ## Shape analyzer (shape_analyzer.py) -/

/-- The measurement record of `shape_analyzer.ShapeMetrics` (floats as
rationals; the four mm fields default to 0 until `convert_to_mm` sets them). -/
structure ShapeMetrics where
  contour_area_px : ℚ
  contour_perimeter_px : ℚ
  bounding_box_px : ℕ × ℕ
  vertex_count : ℕ
  circularity : ℚ
  fill_ratio : ℚ
  complexity_score : ℚ
  outline_length_score : ℚ := 0
  direction_change_score : ℚ := 0
  area_mm2 : ℚ := 0
  perimeter_mm : ℚ := 0
  bbox_width_mm : ℚ := 0
  bbox_height_mm : ℚ := 0


/-- `max(contours, key=cv2.contourArea)`: Python's max keeps the first of
several maximal elements, so the fold updates only on strict increase. -/
def mainContour (contours : List Contour) : Contour :=
  match contours with
  | [] => []
  | c :: rest => rest.foldl (fun best d => if contourArea best < contourArea d then d else best) c

/-- `_calculate_acute_ratio`: fraction of the simplified polygon's vertices
whose interior angle is under 90 degrees. The source compares
`degrees(acos(cos)) < 90`, which for nonzero edge vectors is equivalent to a
positive dot product; zero-length edges are skipped exactly as its
`continue` does. -/
def _calculate_acute_ratio (approx_poly : List (ℤ × ℤ)) : ℚ :=
  let n := approx_poly.length
  if n < 3 then 0
  else
    let acute_count := (List.range n).countP (fun i =>
      let p1 := approx_poly.getD ((i + n - 1) % n) (0, 0)
      let p2 := approx_poly.getD i (0, 0)
      let p3 := approx_poly.getD ((i + 1) % n) (0, 0)
      let v1 := (p1.1 - p2.1, p1.2 - p2.2)
      let v2 := (p3.1 - p2.1, p3.2 - p2.2)
      v1 != ((0 : ℤ), (0 : ℤ)) && v2 != ((0 : ℤ), (0 : ℤ)) &&
        decide (0 < v1.1 * v2.1 + v1.2 * v2.2))
    (acute_count : ℚ) / (n : ℚ)

/-- `_calculate_complexity`: (overall score, outline-length score,
direction-change score); the `area` argument is accepted and unused, as in
the source. -/
def _calculate_complexity (vertex_count : ℕ) (perimeter : ℚ) (area : ℚ)
    (acute_r : ℚ) (contour : Contour) : ℚ × ℚ × ℚ :=
  let br := boundingRect contour
  let bbox_perimeter : ℚ := if 0 < br.bw + br.bh then (2 * (br.bw + br.bh) : ℕ) else 1
  let outline_r := perimeter / bbox_perimeter
  let outline_length_score := min (max ((outline_r - 1) / 1) 0) 1
  let vertex_norm := min (max (((vertex_count : ℚ) - 4) / 32) 0) 1
  let acute_norm := min acute_r 1
  let direction_change_score := vertex_norm * 0.6 + acute_norm * 0.4
  let score := min (max (outline_length_score * 0.5 + direction_change_score * 0.5) 0) 1
  (score, outline_length_score, direction_change_score)

/-- The raw (unrounded) fill ratio of the largest contour of a contour
list: enclosed area over bounding-box area, 0 for an empty bounding box. -/
def rawFillRatio (contours : List Contour) : ℚ :=
  let main_contour := mainContour contours
  let br := boundingRect main_contour
  let bbox_area : ℚ := ((br.bw * br.bh : ℕ) : ℚ)
  if 0 < bbox_area then contourArea main_contour / bbox_area else 0

/-- `_analyze_contours`: metrics of the largest contour; `None` below the
100 px² noise threshold. On the empty list the fold yields the empty contour
of area 0, likewise rejected (the callers guard emptiness as the source does). -/
def _analyze_contours (contours : List Contour) : Option ShapeMetrics :=
  let main_contour := mainContour contours
  let area := contourArea main_contour
  if area < 100 then none
  else
    let perimeter := arcLength main_contour
    let br := boundingRect main_contour
    let epsilon := 0.01 * perimeter
    let approx := approxPolyDP main_contour epsilon
    let acute_r := _calculate_acute_ratio approx
    let circularity : ℚ :=
      min (if 0 < perimeter then (4 * mathPi * area) / (perimeter * perimeter) else 0) 1
    let fill_r : ℚ := rawFillRatio contours
    if 0.95 < fill_r then
      some { contour_area_px := area, contour_perimeter_px := perimeter,
             bounding_box_px := (br.bw, br.bh), vertex_count := 4,
             circularity := pyRound (mathPi / 4) 4, fill_ratio := pyRound fill_r 4,
             complexity_score := pyRound 0 4, outline_length_score := pyRound 0 4,
             direction_change_score := pyRound 0 4 }
    else
      let c := _calculate_complexity approx.length perimeter area acute_r main_contour
      some { contour_area_px := area, contour_perimeter_px := perimeter,
             bounding_box_px := (br.bw, br.bh), vertex_count := approx.length,
             circularity := pyRound circularity 4, fill_ratio := pyRound fill_r 4,
             complexity_score := pyRound c.1 4, outline_length_score := pyRound c.2.1 4,
             direction_change_score := pyRound c.2.2 4 }

/-- `analyze_from_mask`: contour analysis of a prebuilt binary mask. -/
def analyze_from_mask (mask : GrayImg) : Option ShapeMetrics :=
  if mask.h * mask.w = 0 then none
  else
    let contours := findContours mask
    if contours.isEmpty then none
    else _analyze_contours contours

/-! ## Mask extraction (shape_analyzer.py) -/

/-- A decoded raster as `cv2.imread(..., IMREAD_UNCHANGED)` can deliver it:
two-dimensional grayscale, three-channel BGR, or four-channel BGRA. -/
inductive ImageData where
  | gray (g : GrayImg)
  | color (c : ColorImg)
  | bgra (c : ColorImg) (alpha : GrayImg)


/-- `cv2.cvtColor(img, cv2.COLOR_BGR2GRAY)`: OpenCV's fixed-point luma
transform `(4899 R + 9617 G + 1868 B + 2^13) >> 14`. -/
def toGrayscale (c : ColorImg) : GrayImg :=
  mkGray c.h c.w (fun y x =>
    let p := c.px y x
    (4899 * p.2.2 + 9617 * p.2.1 + 1868 * p.1 + 8192) / 16384)

/-- The 256-bin intensity histogram of a grayscale image. -/
def histogram (g : GrayImg) : List ℕ :=
  (List.range 256).map (fun v =>
    g.data.foldr (fun row acc => row.countP (fun p => p == v) + acc) 0)

/-- Between-class variances of every candidate Otsu threshold, computed
exactly from running cumulative sums over the histogram (`w0·w1·(μ0 − μ1)²`,
zero when a class is empty). -/
def otsuSigmas (hist : List ℕ) : List ℚ :=
  let n := hist.sum
  let weighted : List ℕ := hist.enum.map (fun e => e.1 * e.2)
  let stotal : ℕ := weighted.sum
  let w0s : List ℕ := (hist.scanl (fun a v => a + v) 0).tail
  let s0s : List ℕ := (weighted.scanl (fun a v => a + v) 0).tail
  (w0s.zip s0s).map (fun p =>
    let w0 : ℕ := p.1
    let s0 : ℕ := p.2
    let w1 := n - w0
    if w0 = 0 ∨ w1 = 0 then 0
    else
      let mu0 : ℚ := (s0 : ℚ) / (w0 : ℚ)
      let mu1 : ℚ := ((stotal - s0 : ℕ) : ℚ) / (w1 : ℚ)
      (w0 : ℚ) * (w1 : ℚ) * (mu0 - mu1) ^ 2)

/-- The threshold `cv2.threshold(..., THRESH_OTSU)` selects: first maximiser
of the between-class variance. -/
def otsuThreshold (g : GrayImg) : ℕ :=
  (argmaxIdx (otsuSigmas (histogram g))).1

/-- `cv2.threshold(gray, 0, 255, THRESH_BINARY_INV + THRESH_OTSU)`. -/
def otsuInvMask (g : GrayImg) : GrayImg :=
  let t := otsuThreshold g
  mkGray g.h g.w (fun y x => if t < g.px y x then 0 else 255)

/-- The Otsu fallback of `_create_mask`: inverse-binary Otsu mask, inverted
once more when its white share exceeds one half. -/
def otsuFallback (gray : GrayImg) : GrayImg :=
  let mask := otsuInvMask gray
  let white_r : ℚ := (countNonzero mask : ℚ) / ((mask.h * mask.w : ℕ) : ℚ)
  if 1/2 < white_r then bitwiseNot mask else mask

/-- The 10×10 patch of a colour image at a given top-left corner, row-major. -/
def patchPixels (img : ColorImg) (top left : ℕ) : List (ℕ × ℕ × ℕ) :=
  (List.range 10).foldr (fun dy acc =>
    (List.range 10).map (fun dx => img.px (top + dy) (left + dx)) ++ acc) []

/-- Squared BGR distance between two pixels (the source compares the float
Euclidean distance with 35; for nonnegative values that is the same as
comparing this square with 1225). -/
def distSqBGR (p q : ℕ × ℕ × ℕ) : ℤ :=
  ((p.1 : ℤ) - q.1) ^ 2 + ((p.2.1 : ℤ) - q.2.1) ^ 2 + ((p.2.2 : ℤ) - q.2.2) ^ 2

/-- `_create_mask_by_corner_sampling`: estimate the background colour from
the four 10×10 corner patches (8-unit quantisation, most frequent key with
`np.unique`'s ascending order and `np.argmax`'s first-maximum rule), demand
it covers half the samples, classify by colour distance, despeckle with an
elliptical open and close, and demand a foreground share in [1%, 95%]. -/
def cornerPixelKeys (img : ColorImg) : List ℕ :=
  let all_pixels :=
    patchPixels img 0 0 ++ patchPixels img 0 (img.w - 10) ++
    patchPixels img (img.h - 10) 0 ++ patchPixels img (img.h - 10) (img.w - 10)
  all_pixels.map (fun p => (p.1 / 8 * 8) * 65536 + (p.2.1 / 8 * 8) * 256 + (p.2.2 / 8 * 8))

/-- The quantised colour key covering most corner samples (`np.unique` sorts
ascending, `np.argmax` keeps the first maximum). -/
def cornerDominantKey (img : ColorImg) : ℕ :=
  let pixel_keys := cornerPixelKeys img
  let unique_keys := (pixel_keys.insertionSort (· ≤ ·)).dedup
  unique_keys.getD (argmaxNat (unique_keys.map (fun u => pixel_keys.count u))) 0

/-- Share of the corner samples covered by the most frequent quantised
colour. -/
def cornerDominantRatio (img : ColorImg) : ℚ :=
  let pixel_keys := cornerPixelKeys img
  let unique_keys := (pixel_keys.insertionSort (· ≤ ·)).dedup
  (((unique_keys.map (fun u => pixel_keys.count u)).foldl max 0 : ℕ) : ℚ) /
    ((pixel_keys.length : ℕ) : ℚ)

/-- Foreground share of a mask (`np.count_nonzero(mask) / mask.size`). -/
def maskFgRatio (m : GrayImg) : ℚ :=
  (countNonzero m : ℚ) / ((m.h * m.w : ℕ) : ℚ)

/-- The despeckled colour-distance mask of corner sampling: 255 where the
squared BGR distance to the background colour exceeds 35², after the
elliptical open and close. -/
def cornerCandidateMask (img : ColorImg) : GrayImg :=
  let dominant_key := cornerDominantKey img
  let bg_color : ℕ × ℕ × ℕ :=
    (dominant_key / 65536 % 256, dominant_key / 256 % 256, dominant_key % 256)
  let mask0 := mkGray img.h img.w
    (fun y x => if 1225 < distSqBGR (img.px y x) bg_color then 255 else 0)
  let kern := ellipseOffsets 5
  morphClose kern (morphOpen kern mask0)

def _create_mask_by_corner_sampling (img : ColorImg) : Option GrayImg :=
  let sample_size := 10
  if img.h < sample_size * 2 ∨ img.w < sample_size * 2 then none
  else if cornerDominantRatio img < 1/2 then none
  else
    let mask := cornerCandidateMask img
    let fg_r := maskFgRatio mask
    if fg_r < 1/100 ∨ 95/100 < fg_r then none
    else some mask

/-- `_create_mask`: alpha threshold for BGRA, corner sampling then the Otsu
fallback for BGR, the Otsu fallback alone for grayscale. -/
def _create_mask (img : ImageData) : Option GrayImg :=
  match img with
  | .bgra _ alpha => some (mkGray alpha.h alpha.w (fun y x => if 10 < alpha.px y x then 255 else 0))
  | .color c =>
    match _create_mask_by_corner_sampling c with
    | some mask => some mask
    | none => some (otsuFallback (toGrayscale c))
  | .gray g => some (otsuFallback g)

/-- The rectangle record `analyze_image` fabricates when no background can be
separated (whole image treated as the shape). -/
def rectangleMetrics (w h : ℕ) : ShapeMetrics :=
  { contour_area_px := ((w * h : ℕ) : ℚ), contour_perimeter_px := ((2 * (w + h) : ℕ) : ℚ),
    bounding_box_px := (w, h), vertex_count := 4,
    circularity := pyRound (mathPi / 4) 4, fill_ratio := 1, complexity_score := 0 }

/-- `analyze_image` after decoding: BGRA images go through `_create_mask`
(alpha thresholding); images without alpha try corner sampling only and fall
back to the fabricated rectangle record, never to Otsu (the source comments
this choice); grayscale images have no corner sampling and always get the
rectangle record. -/
def analyze_image (img : ImageData) : Option ShapeMetrics :=
  match img with
  | .bgra c alpha =>
    match _create_mask (.bgra c alpha) with
    | none => none
    | some mask =>
      let contours := findContours mask
      if contours.isEmpty then none else _analyze_contours contours
  | .color c =>
    match _create_mask_by_corner_sampling c with
    | none => some (rectangleMetrics c.w c.h)
    | some mask =>
      let contours := findContours mask
      if contours.isEmpty then none else _analyze_contours contours
  | .gray g => some (rectangleMetrics g.w g.h)

/-- The GrabCut initialisation grid: certain background (`GC_BGD = 0`)
outside the drawn region, probable foreground (`GC_PR_FGD = 3`) inside. -/
def gcInit (h w : ℕ) (region : GrayImg) : GrayImg :=
  mkGray h w (fun y x => if 0 < region.px y x then 3 else 0)

/-- Foreground of a GrabCut classification grid
(`GC_FGD = 1` or `GC_PR_FGD = 3` become 255). -/
def binFromGC (gc : GrayImg) : GrayImg :=
  mkGray gc.h gc.w (fun y x => if gc.px y x = 1 ∨ gc.px y x = 3 then 255 else 0)

/-- `_refine_mask_in_region`, with `cv2.grabCut` as an explicit collaborator:
given the BGR image and the initial classification it returns the final
classification, or `none` when it raises (the `except` path). The area policy
and the fallback to the raw region mask are the code under verification. The
float literal 0.1 is modelled by the rational 1/10. -/
def grabCutRefined (grabCut : ColorImg → GrayImg → Option GrayImg)
    (bgr : ColorImg) (region_mask : GrayImg) : Option GrayImg :=
  (grabCut bgr (gcInit bgr.h bgr.w region_mask)).map binFromGC

def _refine_mask_in_region (grabCut : ColorImg → GrayImg → Option GrayImg)
    (bgr : ColorImg) (region_mask : GrayImg) : GrayImg :=
  match grabCutRefined grabCut bgr region_mask with
  | none => region_mask
  | some refined =>
    let orig_area := countNonzero region_mask
    let refined_area := countNonzero refined
    if (refined_area : ℚ) < (orig_area : ℚ) * 0.1 then region_mask
    else morphClose (ellipseOffsets 3) refined

/-- `convert_to_mm`: average-of-axes scale, area by scale², lengths by scale,
every mm field rounded to 2 decimals; all pixel-space fields are untouched. -/
def convert_to_mm (metrics : ShapeMetrics) (target_width_mm target_height_mm : ℚ) :
    ShapeMetrics :=
  let bbox_w_px := metrics.bounding_box_px.1
  let bbox_h_px := metrics.bounding_box_px.2
  let scale_x : ℚ := if 0 < bbox_w_px then target_width_mm / (bbox_w_px : ℚ) else 1
  let scale_y : ℚ := if 0 < bbox_h_px then target_height_mm / (bbox_h_px : ℚ) else 1
  let scale := (scale_x + scale_y) / 2
  { metrics with
    area_mm2 := pyRound (metrics.contour_area_px * scale * scale) 2,
    perimeter_mm := pyRound (metrics.contour_perimeter_px * scale) 2,
    bbox_width_mm := pyRound target_width_mm 2,
    bbox_height_mm := pyRound target_height_mm 2 }

/-! ## Cutting-line generator (cutting_line_generator.py)

`_load_cutting_config` reads a JSON file; the configuration is therefore an
explicit argument here, and `defaultCuttingConfig` is the built-in default
dictionary combined with the per-use `.get` fallbacks for the keys the
default dictionary does not carry (the internal-hole geometry). -/

structure KeyringHoleCfg where
  diameter_mm : ℚ
  edge_distance_mm : ℚ
  bridge_width_mm : ℚ


structure InternalHoleCfg where
  width_mm : ℚ
  height_mm : ℚ
  edge_distance_mm : ℚ


structure CuttingConfig where
  print_offset_mm : ℚ
  cutting_offset_mm : ℚ
  smoothing_factor : ℚ
  keyring_hole : KeyringHoleCfg
  internal_hole : InternalHoleCfg


def defaultCuttingConfig : CuttingConfig :=
  { print_offset_mm := 2.0, cutting_offset_mm := 2.0, smoothing_factor := 0.02,
    keyring_hole := { diameter_mm := 4.0, edge_distance_mm := 3.0, bridge_width_mm := 2.5 },
    internal_hole := { width_mm := 3.214, height_mm := 3.168, edge_distance_mm := 5.0 } }

/-- The result record of `generate_cutting_lines`. -/
structure CuttingLineResult where
  print_contour : Contour
  cutting_contour : Contour
  print_mask : GrayImg
  cutting_mask : GrayImg
  hole_center : Option (ℤ × ℤ) := none
  hole_radius_px : ℤ := 0
  hole_size_px : Option (ℤ × ℤ) := none
  bridge_contour : Option Contour := none
  product_type : String := "objet"
  hole_type : String := "ring"
  keyring_position : String := "top"
  print_offset_px : ℚ := 0
  cutting_offset_px : ℚ := 0


/-- Kernel size of the pre-smoothing Gaussian:
`max(7, min(h, w) // 60) | 1`. -/
def preBlurSize (m : GrayImg) : ℕ := (max 7 (min m.h m.w / 60)) ||| 1

/-- Stage 1 of `generate_offset_contour`: Gaussian pre-smoothing of the input
mask and re-binarisation at 127. -/
def preSmooth (m : GrayImg) : GrayImg :=
  thresholdBin 127 255 (gaussianBlur (preBlurSize m) m)

/-- Structuring-element size for the dilation:
`max(3, int(offset_px * 2) | 1)`. -/
def offsetKernelSize (offset_px : ℚ) : ℕ :=
  max 3 ((pyInt (offset_px * 2)).toNat ||| 1)

/-- Dilation count: `max(1, ceil(offset_px / (kernel_size / 2)))`. -/
def offsetIterations (offset_px : ℚ) (kernel_size : ℕ) : ℕ :=
  max 1 (pyCeil (offset_px / ((kernel_size : ℚ) / 2))).toNat

/-- `cv2.dilate(img, kernel, iterations=n)`: n successive dilations. -/
def iterDilate (offs : List (ℤ × ℤ)) : ℕ → GrayImg → GrayImg
  | 0, m => m
  | n+1, m => iterDilate offs n (dilateK offs m)

/-- Stage 2 of `generate_offset_contour`: the elliptical dilation of the
pre-smoothed mask by the configured offset. -/
def expandStage (m : GrayImg) (offset_px : ℚ) : GrayImg :=
  iterDilate (ellipseOffsets (offsetKernelSize offset_px))
    (offsetIterations offset_px (offsetKernelSize offset_px)) (preSmooth m)

/-- Kernel size of the light edge blur: `max(3, int(offset_px * 0.5)) | 1`. -/
def edgeBlurSize (offset_px : ℚ) : ℕ :=
  (max 3 (pyInt (offset_px * 0.5)).toNat) ||| 1

/-- Stage 3 of `generate_offset_contour`: light Gaussian edge blur of the
dilated mask and re-binarisation at 127. -/
def edgeSmooth (m : GrayImg) (offset_px : ℚ) : GrayImg :=
  thresholdBin 127 255 (gaussianBlur (edgeBlurSize offset_px) m)

/-- `generate_offset_contour`: for a nonpositive offset, the largest contour
of the mask itself and a copy of the mask; otherwise pre-smooth, dilate,
edge-blur, then keep the largest external contour and rasterise it into a
fresh mask. `smoothing_factor` is accepted and unused, as in the source.
Both returns of the source carry either two values or two `None`s, so the
pair sits inside one `Option`. -/
def generate_offset_contour (mask : GrayImg) (offset_px : ℚ)
    (smoothing_factor : ℚ) : Option (Contour × GrayImg) :=
  if offset_px ≤ 0 then
    let contours := findContours mask
    if contours.isEmpty then none
    else some (mainContour contours, mask)
  else
    let smoothed := edgeSmooth (expandStage mask offset_px) offset_px
    let contours := findContours smoothed
    if contours.isEmpty then none
    else
      let main_contour := mainContour contours
      some (main_contour, fillContour mask.h mask.w main_contour)

/-- `_calculate_keyring_hole`: ring-hole centre and radius from the cutting
contour's bounding box, the position string, and the hole geometry in
pixels. -/
def _calculate_keyring_hole (cutting_contour : Contour) (position : String)
    (hole_diameter_px edge_distance_px : ℚ) : (ℤ × ℤ) × ℤ :=
  let br := boundingRect cutting_contour
  let hole_r := pyInt (hole_diameter_px / 2)
  let dist := pyInt edge_distance_px
  let center : ℤ × ℤ :=
    if position = "top" then (br.x + ((br.bw / 2 : ℕ) : ℤ), br.y - dist - hole_r)
    else if position = "bottom" then
      (br.x + ((br.bw / 2 : ℕ) : ℤ), br.y + (br.bh : ℤ) + dist + hole_r)
    else if position = "left" then
      (br.x - dist - hole_r, br.y + ((br.bh / 2 : ℕ) : ℤ))
    else if position = "right" then
      (br.x + (br.bw : ℤ) + dist + hole_r, br.y + ((br.bh / 2 : ℕ) : ℤ))
    else (br.x + ((br.bw / 2 : ℕ) : ℤ), br.y - dist - hole_r)
  (center, hole_r)

/-- `_calculate_internal_hole`: inward hole centre from the selected edge,
clamped to keep the hole's half-extents 2 px inside the image. -/
def _calculate_internal_hole (cutting_contour : Contour) (cutting_mask : GrayImg)
    (position : String) (hole_w_px hole_h_px edge_distance_px : ℚ) :
    (ℤ × ℤ) × (ℤ × ℤ) :=
  let h := cutting_mask.h
  let w := cutting_mask.w
  let br := boundingRect cutting_contour
  let hw := pyInt (hole_w_px / 2)
  let hh := pyInt (hole_h_px / 2)
  let dist := pyInt edge_distance_px
  let c0 : ℤ × ℤ :=
    if position = "top" then (br.x + ((br.bw / 2 : ℕ) : ℤ), br.y + dist)
    else if position = "bottom" then (br.x + ((br.bw / 2 : ℕ) : ℤ), br.y + (br.bh : ℤ) - dist)
    else if position = "left" then (br.x + dist, br.y + ((br.bh / 2 : ℕ) : ℤ))
    else if position = "right" then (br.x + (br.bw : ℤ) - dist, br.y + ((br.bh / 2 : ℕ) : ℤ))
    else (br.x + ((br.bw / 2 : ℕ) : ℤ), br.y + dist)
  let cx := max (hw + 2) (min ((w : ℤ) - hw - 2) c0.1)
  let cy := max (hh + 2) (min ((h : ℤ) - hh - 2) c0.2)
  ((cx, cy), (pyInt hole_w_px, pyInt hole_h_px))

/-- `cv2.ellipse(mask, center, axes, 0, 0, 360, 0, -1)`: blacken the filled
axis-aligned ellipse (pixel-centre rasterisation of the implicit equation). -/
def ellipseErase (m : GrayImg) (center : ℤ × ℤ) (axes : ℤ × ℤ) : GrayImg :=
  mkGray m.h m.w (fun y x =>
    let dx := (x : ℤ) - center.1
    let dy := (y : ℤ) - center.2
    if axes.2 ^ 2 * dx ^ 2 + axes.1 ^ 2 * dy ^ 2 ≤ axes.1 ^ 2 * axes.2 ^ 2
    then 0 else m.px y x)

/-- `generate_cutting_lines`: print line from the original mask, cutting line
from the print mask, then the keyring hole (internal holes are punched out of
the cutting mask; ring holes only record centre and radius). -/
def generate_cutting_lines (config : CuttingConfig) (mask : GrayImg)
    (size_px : ℕ × ℕ) (size_mm : ℚ × ℚ) (product_type : String)
    (keyring_position : String) (hole_type : String) : Option CuttingLineResult :=
  let scale_x : ℚ := if 0 < size_mm.1 then (size_px.1 : ℚ) / size_mm.1 else 1
  let scale_y : ℚ := if 0 < size_mm.2 then (size_px.2 : ℚ) / size_mm.2 else 1
  let scale := (scale_x + scale_y) / 2
  let print_offset_px := config.print_offset_mm * scale
  let cutting_offset_px := config.cutting_offset_mm * scale
  match generate_offset_contour mask print_offset_px config.smoothing_factor with
  | none => none
  | some (print_contour, print_mask) =>
    match generate_offset_contour print_mask cutting_offset_px config.smoothing_factor with
    | none => none
    | some (cutting_contour, cutting_mask) =>
      let base : CuttingLineResult :=
        { print_contour := print_contour, cutting_contour := cutting_contour,
          print_mask := print_mask, cutting_mask := cutting_mask,
          product_type := product_type, hole_type := hole_type,
          keyring_position := keyring_position,
          print_offset_px := print_offset_px, cutting_offset_px := cutting_offset_px }
      if product_type = "keyring" then
        if hole_type = "internal" then
          let hole_w_px := config.internal_hole.width_mm * scale
          let hole_h_px := config.internal_hole.height_mm * scale
          let edge_d_px := config.internal_hole.edge_distance_mm * scale
          let hc := _calculate_internal_hole cutting_contour cutting_mask
            keyring_position hole_w_px hole_h_px edge_d_px
          some { base with
            hole_center := some hc.1, hole_size_px := some hc.2,
            hole_radius_px := (hc.2.1 + hc.2.2) / 4,
            cutting_mask := ellipseErase cutting_mask hc.1 (hc.2.1 / 2, hc.2.2 / 2) }
        else
          let hole_d_px := config.keyring_hole.diameter_mm * scale
          let edge_d_px := config.keyring_hole.edge_distance_mm * scale
          let hc := _calculate_keyring_hole cutting_contour keyring_position hole_d_px edge_d_px
          some { base with hole_center := some hc.1, hole_radius_px := hc.2 }
      else some base

/-! ## The spec's reading of the non-alpha analysis path

The specification says that when corner sampling fails, shape analysis falls
back to `_create_mask`'s global-Otsu mask and measures its largest contour.
This composite (built from the source's own `_create_mask` and
`_analyze_contours`) is that reading, to be compared with `analyze_image`. -/
def metricsFromCreateMask (img : ImageData) : Option ShapeMetrics :=
  match _create_mask img with
  | none => none
  | some mask =>
    let contours := findContours mask
    if contours.isEmpty then none else _analyze_contours contours

/-! ## Concrete inputs for the counterexamples and witnesses -/

/-- The contour `cv2.findContours` returns for a full w×h rectangle mask:
its four corners, top-left first, descending first (as traced). -/
def rectContour (w h : ℕ) : Contour :=
  [(0, 0), (0, (h : ℤ) - 1), ((w : ℤ) - 1, (h : ℤ) - 1), ((w : ℤ) - 1, 0)]

/-- A 16×16 mask with two foreground components: a 5×5 square and, well
separated from it, a 3×3 square. -/
def cexC1Mask : GrayImg := mkGray 16 16 (fun y x =>
  if (2 ≤ y ∧ y ≤ 6 ∧ 2 ≤ x ∧ x ≤ 6) ∨ (12 ≤ y ∧ y ≤ 14 ∧ 12 ≤ x ∧ x ≤ 14) then 255 else 0)

/-- A 16×16 grayscale image: intensity 200 on an 11×11 block, 0 elsewhere. -/
def cexC2Gray : GrayImg := mkGray 16 16 (fun y x =>
  if 2 ≤ y ∧ y ≤ 12 ∧ 2 ≤ x ∧ x ≤ 12 then 200 else 0)

/-- `cexC2Gray` written out pixel by pixel. -/
def cexC2GrayLit : GrayImg :=
  ⟨16, 16,
  [[0, 0, 0, 0, 0, 0, 0, 0, 0, 0, 0, 0, 0, 0, 0, 0],
   [0, 0, 0, 0, 0, 0, 0, 0, 0, 0, 0, 0, 0, 0, 0, 0],
   [0, 0, 200, 200, 200, 200, 200, 200, 200, 200, 200, 200, 200, 0, 0, 0],
   [0, 0, 200, 200, 200, 200, 200, 200, 200, 200, 200, 200, 200, 0, 0, 0],
   [0, 0, 200, 200, 200, 200, 200, 200, 200, 200, 200, 200, 200, 0, 0, 0],
   [0, 0, 200, 200, 200, 200, 200, 200, 200, 200, 200, 200, 200, 0, 0, 0],
   [0, 0, 200, 200, 200, 200, 200, 200, 200, 200, 200, 200, 200, 0, 0, 0],
   [0, 0, 200, 200, 200, 200, 200, 200, 200, 200, 200, 200, 200, 0, 0, 0],
   [0, 0, 200, 200, 200, 200, 200, 200, 200, 200, 200, 200, 200, 0, 0, 0],
   [0, 0, 200, 200, 200, 200, 200, 200, 200, 200, 200, 200, 200, 0, 0, 0],
   [0, 0, 200, 200, 200, 200, 200, 200, 200, 200, 200, 200, 200, 0, 0, 0],
   [0, 0, 200, 200, 200, 200, 200, 200, 200, 200, 200, 200, 200, 0, 0, 0],
   [0, 0, 200, 200, 200, 200, 200, 200, 200, 200, 200, 200, 200, 0, 0, 0],
   [0, 0, 0, 0, 0, 0, 0, 0, 0, 0, 0, 0, 0, 0, 0, 0],
   [0, 0, 0, 0, 0, 0, 0, 0, 0, 0, 0, 0, 0, 0, 0, 0],
   [0, 0, 0, 0, 0, 0, 0, 0, 0, 0, 0, 0, 0, 0, 0, 0]]⟩

/-- The histogram of `cexC2Gray`, entry by entry: 135 black pixels and 121
of intensity 200. -/
def cexC2Hist : List ℕ :=
  [135, 0, 0, 0, 0, 0, 0, 0, 0, 0, 0, 0, 0, 0, 0, 0,
   0, 0, 0, 0, 0, 0, 0, 0, 0, 0, 0, 0, 0, 0, 0, 0,
   0, 0, 0, 0, 0, 0, 0, 0, 0, 0, 0, 0, 0, 0, 0, 0,
   0, 0, 0, 0, 0, 0, 0, 0, 0, 0, 0, 0, 0, 0, 0, 0,
   0, 0, 0, 0, 0, 0, 0, 0, 0, 0, 0, 0, 0, 0, 0, 0,
   0, 0, 0, 0, 0, 0, 0, 0, 0, 0, 0, 0, 0, 0, 0, 0,
   0, 0, 0, 0, 0, 0, 0, 0, 0, 0, 0, 0, 0, 0, 0, 0,
   0, 0, 0, 0, 0, 0, 0, 0, 0, 0, 0, 0, 0, 0, 0, 0,
   0, 0, 0, 0, 0, 0, 0, 0, 0, 0, 0, 0, 0, 0, 0, 0,
   0, 0, 0, 0, 0, 0, 0, 0, 0, 0, 0, 0, 0, 0, 0, 0,
   0, 0, 0, 0, 0, 0, 0, 0, 0, 0, 0, 0, 0, 0, 0, 0,
   0, 0, 0, 0, 0, 0, 0, 0, 0, 0, 0, 0, 0, 0, 0, 0,
   0, 0, 0, 0, 0, 0, 0, 0, 121, 0, 0, 0, 0, 0, 0, 0,
   0, 0, 0, 0, 0, 0, 0, 0, 0, 0, 0, 0, 0, 0, 0, 0,
   0, 0, 0, 0, 0, 0, 0, 0, 0, 0, 0, 0, 0, 0, 0, 0,
   0, 0, 0, 0, 0, 0, 0, 0, 0, 0, 0, 0, 0, 0, 0, 0]

/-- The between-class variances Otsu computes on `cexC2Gray`'s histogram:
the 135/121 split is the same for every threshold below 200, zero above. -/
def cexC2Sigmas : List ℚ :=
  (List.range 256).map (fun t => if t ≤ 199 then 653400000 else 0)

/-- The mask the Otsu fallback produces for `cexC2Gray` (threshold 0,
inverse-binary, inverted once more since white covers 135/256 > 1/2). -/
def cexC2Mask : GrayImg := mkGray 16 16 (fun y x =>
  if 2 ≤ y ∧ y ≤ 12 ∧ 2 ≤ x ∧ x ≤ 12 then 255 else 0)

/-- A perfect axis-aligned rectangle mask: all 144 pixels foreground. -/
def cexC3Mask : GrayImg := mkGray 12 12 (fun _ _ => 255)

/-- A 16×16 mask with a single 12×12 foreground block. -/
def c4mask : GrayImg := mkGray 16 16 (fun y x =>
  if 2 ≤ y ∧ y ≤ 13 ∧ 2 ≤ x ∧ x ≤ 13 then 255 else 0)

/-- The metrics `analyze_from_mask` computes for `c4mask`. -/
def c4metrics : ShapeMetrics :=
  { contour_area_px := 121, contour_perimeter_px := 44, bounding_box_px := (12, 12),
    vertex_count := 4, circularity := 3927/5000, fill_ratio := 8403/10000,
    complexity_score := 0, outline_length_score := 0, direction_change_score := 0 }

/-- A 20×20 BGR image: colour (200,200,200) on an 8×8 block, black elsewhere. -/
def c8img : ColorImg := ⟨20, 20,
  (List.range 20).map (fun y => (List.range 20).map (fun x =>
    if 6 ≤ y ∧ y ≤ 13 ∧ 6 ≤ x ∧ x ≤ 13 then ((200, 200, 200) : ℕ × ℕ × ℕ) else (0, 0, 0)))⟩

/-- A uniform 10×10 BGR image: below the 20-pixel minimum of corner
sampling in both dimensions. -/
def c8tiny : ColorImg := ⟨10, 10,
  (List.range 10).map (fun _ => (List.range 10).map (fun _ => ((17, 17, 17) : ℕ × ℕ × ℕ)))⟩

/-- A square test contour for the hole-placement counterexamples. -/
def cexHoleContour : Contour := [(10, 10), (20, 10), (20, 20), (10, 20)]

/-- A full 5×5 mask: too small for a 4×4 internal hole to fit with margins. -/
def cexTinyMask : GrayImg := mkGray 5 5 (fun _ _ => 255)

/-- An 8×8 all-foreground mask (witness input: Gaussian blur of a constant
raster is that constant, so pre-smoothing keeps every pixel). -/
def c1small : GrayImg := mkGray 8 8 (fun _ _ => 255)

/-- A pixel-space metrics record used by the unit-conversion witnesses. -/
def c5metrics : ShapeMetrics :=
  { contour_area_px := 50, contour_perimeter_px := 30, bounding_box_px := (10, 20),
    vertex_count := 4, circularity := 1/2, fill_ratio := 1/4, complexity_score := 1/8 }

/-- The mask corner sampling returns for `c8img`. -/
def c8maskLit : GrayImg :=
  ⟨20, 20,
  [[0, 0, 0, 0, 0, 0, 0, 0, 0, 0, 0, 0, 0, 0, 0, 0, 0, 0, 0, 0],
   [0, 0, 0, 0, 0, 0, 0, 0, 0, 0, 0, 0, 0, 0, 0, 0, 0, 0, 0, 0],
   [0, 0, 0, 0, 0, 0, 0, 0, 0, 0, 0, 0, 0, 0, 0, 0, 0, 0, 0, 0],
   [0, 0, 0, 0, 0, 0, 0, 0, 0, 0, 0, 0, 0, 0, 0, 0, 0, 0, 0, 0],
   [0, 0, 0, 0, 0, 0, 0, 0, 0, 0, 0, 0, 0, 0, 0, 0, 0, 0, 0, 0],
   [0, 0, 0, 0, 0, 0, 0, 0, 0, 0, 0, 0, 0, 0, 0, 0, 0, 0, 0, 0],
   [0, 0, 0, 0, 0, 0, 0, 0, 255, 255, 255, 255, 0, 0, 0, 0, 0, 0, 0, 0],
   [0, 0, 0, 0, 0, 0, 255, 255, 255, 255, 255, 255, 255, 255, 0, 0, 0, 0, 0, 0],
   [0, 0, 0, 0, 0, 0, 255, 255, 255, 255, 255, 255, 255, 255, 0, 0, 0, 0, 0, 0],
   [0, 0, 0, 0, 0, 0, 255, 255, 255, 255, 255, 255, 255, 255, 0, 0, 0, 0, 0, 0],
   [0, 0, 0, 0, 0, 0, 255, 255, 255, 255, 255, 255, 255, 255, 0, 0, 0, 0, 0, 0],
   [0, 0, 0, 0, 0, 0, 255, 255, 255, 255, 255, 255, 255, 255, 0, 0, 0, 0, 0, 0],
   [0, 0, 0, 0, 0, 0, 255, 255, 255, 255, 255, 255, 255, 255, 0, 0, 0, 0, 0, 0],
   [0, 0, 0, 0, 0, 0, 0, 0, 255, 255, 255, 255, 0, 0, 0, 0, 0, 0, 0, 0],
   [0, 0, 0, 0, 0, 0, 0, 0, 0, 0, 0, 0, 0, 0, 0, 0, 0, 0, 0, 0],
   [0, 0, 0, 0, 0, 0, 0, 0, 0, 0, 0, 0, 0, 0, 0, 0, 0, 0, 0, 0],
   [0, 0, 0, 0, 0, 0, 0, 0, 0, 0, 0, 0, 0, 0, 0, 0, 0, 0, 0, 0],
   [0, 0, 0, 0, 0, 0, 0, 0, 0, 0, 0, 0, 0, 0, 0, 0, 0, 0, 0, 0],
   [0, 0, 0, 0, 0, 0, 0, 0, 0, 0, 0, 0, 0, 0, 0, 0, 0, 0, 0, 0],
   [0, 0, 0, 0, 0, 0, 0, 0, 0, 0, 0, 0, 0, 0, 0, 0, 0, 0, 0, 0]]⟩

/-- A rational is a 4-decimal value (what `round(x, 4)` produces). -/
def isRounded4 (q : ℚ) : Prop := ∃ k : ℤ, q = (k : ℚ) / 10 ^ 4

/-! ## Helper lemmas -/

theorem mkGray_h (h w : ℕ) (f : ℕ → ℕ → ℕ) : (mkGray h w f).h = h := rfl

theorem mkGray_px (h w : ℕ) (f : ℕ → ℕ → ℕ) (y x : ℕ) (hy : y < h) (hx : x < w) :
    (mkGray h w f).px y x = f y x := by
  simp [mkGray, GrayImg.px, List.getD, List.getElem?_map, List.getElem?_range, hy, hx]

theorem mkGray_px_out (h w : ℕ) (f : ℕ → ℕ → ℕ) (y x : ℕ) (hyx : h ≤ y ∨ w ≤ x) :
    (mkGray h w f).px y x = 0 := by
  rcases hyx with hy | hx
  · have hrow : (mkGray h w f).data.getD y [] = [] := by
      unfold mkGray
      dsimp only
      rw [List.getD_eq_getElem?_getD, List.getElem?_eq_none (by simpa using hy)]
      rfl
    unfold GrayImg.px
    rw [hrow]
    simp
  · by_cases hy : y < h
    · have hrow : (mkGray h w f).data.getD y [] = (List.range w).map (fun x => f y x) := by
        unfold mkGray
        dsimp only
        rw [List.getD_eq_getElem?_getD, List.getElem?_map, List.getElem?_range hy]
        rfl
      unfold GrayImg.px
      rw [hrow, List.getD_eq_getElem?_getD, List.getElem?_eq_none (by simpa using hx)]
      rfl
    · have hrow : (mkGray h w f).data.getD y [] = [] := by
        unfold mkGray
        dsimp only
        rw [List.getD_eq_getElem?_getD, List.getElem?_eq_none (by simpa using Nat.not_lt.mp hy)]
        rfl
      unfold GrayImg.px
      rw [hrow]
      simp

theorem mkGray_px_le (h w : ℕ) (f : ℕ → ℕ → ℕ) (B : ℕ)
    (hf : ∀ y x, f y x ≤ B) (y x : ℕ) : (mkGray h w f).px y x ≤ B := by
  by_cases hy : y < h
  · by_cases hx : x < w
    · rw [mkGray_px h w f y x hy hx]; exact hf y x
    · rw [mkGray_px_out h w f y x (Or.inr (Nat.not_lt.mp hx))]; exact Nat.zero_le B
  · rw [mkGray_px_out h w f y x (Or.inl (Nat.not_lt.mp hy))]; exact Nat.zero_le B

theorem rndHalfEven_nonneg (q : ℚ) (hq : 0 ≤ q) : 0 ≤ rndHalfEven q := by
  have hf : (0 : ℤ) ≤ ⌊q⌋ := Int.floor_nonneg.mpr hq
  unfold rndHalfEven
  dsimp only
  repeat' split
  all_goals omega

theorem rndHalfEven_le (q : ℚ) (B : ℤ) (h : q ≤ (B : ℚ)) : rndHalfEven q ≤ B := by
  have hf : ⌊q⌋ ≤ B := by
    have := Int.floor_le_floor h
    simpa using this
  have key : (1:ℚ)/2 ≤ q - (⌊q⌋ : ℚ) → ⌊q⌋ < B := by
    intro hr
    rcases eq_or_lt_of_le hf with heq | hlt
    · exfalso
      rw [heq] at hr
      have : q - (B : ℚ) ≤ 0 := by linarith
      linarith
    · exact hlt
  unfold rndHalfEven
  dsimp only
  by_cases h1 : q - (⌊q⌋ : ℚ) < 1/2
  · rw [if_pos h1]
    exact hf
  · have hlt : ⌊q⌋ < B := key (le_of_not_lt h1)
    rw [if_neg h1]
    split
    · omega
    · split <;> omega

theorem abs_rndHalfEven_sub (q : ℚ) : |(rndHalfEven q : ℚ) - q| ≤ 1/2 := by
  have h1 : (⌊q⌋ : ℚ) ≤ q := Int.floor_le q
  have h2 : q < (⌊q⌋ : ℚ) + 1 := Int.lt_floor_add_one q
  unfold rndHalfEven
  dsimp only
  split
  · rename_i hr
    rw [abs_le]
    constructor <;> linarith
  · rename_i hr
    push_neg at hr
    split
    · rename_i hr2
      push_cast
      rw [abs_le]
      constructor <;> linarith
    · rename_i hr2
      push_neg at hr2
      have : q - (⌊q⌋ : ℚ) = 1/2 := le_antisymm hr2 hr
      split
      · rw [abs_le]; constructor <;> linarith
      · push_cast; rw [abs_le]; constructor <;> linarith

theorem pyRound_nonneg (q : ℚ) (n : ℕ) (hq : 0 ≤ q) : 0 ≤ pyRound q n := by
  unfold pyRound
  apply div_nonneg _ (by positivity)
  exact_mod_cast rndHalfEven_nonneg _ (by positivity)

theorem pyRound_le_one (q : ℚ) (n : ℕ) (hq : q ≤ 1) : pyRound q n ≤ 1 := by
  unfold pyRound
  rw [div_le_one (by positivity)]
  have hb : q * 10 ^ n ≤ ((10 ^ n : ℤ) : ℚ) := by
    push_cast
    nlinarith [pow_pos (show (0:ℚ) < 10 by norm_num) n]
  exact_mod_cast rndHalfEven_le _ _ hb

theorem pyRound_isRounded4 (q : ℚ) : isRounded4 (pyRound q 4) := ⟨rndHalfEven (q * 10 ^ 4), rfl⟩

theorem abs_pyRound_sub (q : ℚ) (n : ℕ) : |pyRound q n - q| ≤ 1 / (2 * 10 ^ n) := by
  unfold pyRound
  have h10 : (0:ℚ) < 10 ^ n := by positivity
  have := abs_rndHalfEven_sub (q * 10 ^ n)
  have heq : (rndHalfEven (q * 10 ^ n) : ℚ) / 10 ^ n - q
      = ((rndHalfEven (q * 10 ^ n) : ℚ) - q * 10 ^ n) / 10 ^ n := by
    field_simp
    ring
  rw [heq, abs_div, abs_of_pos h10, div_le_div_iff₀ h10 (by positivity)]
  calc |(rndHalfEven (q * 10 ^ n) : ℚ) - q * 10 ^ n| * (2 * 10 ^ n)
      ≤ (1/2) * (2 * 10 ^ n) := by
        apply mul_le_mul_of_nonneg_right this (by positivity)
    _ = 1 * 10 ^ n := by ring

theorem isqrtGo_spec (n : ℕ) : ∀ (fuel lo hi : ℕ), lo * lo ≤ n → n < hi * hi → lo < hi →
    hi ≤ lo + 2 ^ fuel →
    isqrtGo n fuel lo hi * isqrtGo n fuel lo hi ≤ n ∧
      n < (isqrtGo n fuel lo hi + 1) * (isqrtGo n fuel lo hi + 1) := by
  intro fuel
  induction fuel with
  | zero =>
    intro lo hi hlo hhi hlt hb
    have : hi = lo + 1 := by simpa using Nat.le_antisymm (by simpa using hb) hlt
    subst this
    exact ⟨hlo, by simpa using hhi⟩
  | succ fuel ih =>
    intro lo hi hlo hhi hlt hb
    unfold isqrtGo
    by_cases hc : hi ≤ lo + 1
    · rw [if_pos hc]
      have : hi = lo + 1 := Nat.le_antisymm hc hlt
      subst this
      exact ⟨hlo, by simpa using hhi⟩
    · rw [if_neg hc]
      have h2 : lo + 2 ≤ hi := by omega
      have hmid1 : lo < (lo + hi) / 2 := by omega
      have hmid2 : (lo + hi) / 2 < hi := by omega
      have hpow : 2 ^ (fuel + 1) = 2 ^ fuel + 2 ^ fuel := by
        rw [pow_succ]; omega
      have hmidb1 : hi ≤ (lo + hi) / 2 + 2 ^ fuel := by omega
      have hmidb2 : (lo + hi) / 2 ≤ lo + 2 ^ fuel := by omega
      dsimp only
      by_cases hm : (lo + hi) / 2 * ((lo + hi) / 2) ≤ n
      · rw [if_pos hm]
        exact ih ((lo + hi) / 2) hi hm hhi hmid2 hmidb1
      · rw [if_neg hm]
        exact ih lo ((lo + hi) / 2) hlo (by omega) hmid1 (by omega)

theorem isqrt_spec (n : ℕ) : isqrt n * isqrt n ≤ n ∧ n < (isqrt n + 1) * (isqrt n + 1) := by
  unfold isqrt
  apply isqrtGo_spec n (n + 1) 0 (n + 1)
  · simp
  · nlinarith
  · omega
  · have h1 := Nat.lt_two_pow n
    have h2 : 2 ^ n ≤ 2 ^ (n + 1) := Nat.pow_le_pow_right (by norm_num) (by omega)
    omega

theorem isqrt_sq (r : ℕ) : isqrt (r * r) = r := by
  obtain ⟨h1, h2⟩ := isqrt_spec (r * r)
  set s := isqrt (r * r) with hs
  have hsr : s ≤ r := by nlinarith
  have hrs : r ≤ s := by nlinarith
  omega

theorem ratSqrt_natCast_sq (m : ℕ) : ratSqrt (((m : ℚ)) ^ 2) = m := by
  unfold ratSqrt
  rcases Nat.eq_zero_or_pos m with hm | hm
  · subst hm; norm_num
  · have hpos : (0 : ℚ) < (m : ℚ) ^ 2 := by positivity
    rw [if_neg (by linarith)]
    have hfloor : ⌊(m : ℚ) ^ 2 * 4 ^ 20⌋ = ((m ^ 2 * 4 ^ 20 : ℕ) : ℤ) := by
      rw [show ((m : ℚ)) ^ 2 * 4 ^ 20 = (((m ^ 2 * 4 ^ 20 : ℕ) : ℤ) : ℚ) by push_cast; ring]
      exact Int.floor_intCast _
    rw [hfloor]
    have htn : ((m ^ 2 * 4 ^ 20 : ℕ) : ℤ).toNat = m ^ 2 * 4 ^ 20 := Int.toNat_natCast _
    rw [htn]
    have h4 : m ^ 2 * 4 ^ 20 = (m * 2 ^ 20) * (m * 2 ^ 20) := by ring
    rw [h4, isqrt_sq]
    push_cast
    rw [mul_div_assoc]
    norm_num

theorem mem_foldr_append {α β : Type} (f : β → List α) (l : List β) (b : β) (hb : b ∈ l)
    (a : α) (ha : a ∈ f b) : a ∈ l.foldr (fun i acc => f i ++ acc) [] := by
  induction l with
  | nil => cases hb
  | cons c cs ih =>
    rcases List.mem_cons.mp hb with hbc | hbs
    · subst hbc
      exact List.mem_append.mpr (Or.inl ha)
    · exact List.mem_append.mpr (Or.inr (ih hbs))

theorem rsqrtHalfUp_sq (r : ℕ) : rsqrtHalfUp (r * r) = r := by
  unfold rsqrtHalfUp
  rw [isqrt_sq]
  dsimp only
  rw [if_neg (by nlinarith)]

theorem center_mem_ellipseRow (k : ℕ) (hk : 1 ≤ k) :
    ((0 : ℤ), (0 : ℤ)) ∈ ellipseRow k (k / 2) := by
  unfold ellipseRow
  set r := k / 2 with hrdef
  have hdy : ((r : ℤ) - (r : ℤ)) = 0 := by ring
  dsimp only
  rw [hdy]
  have htn : ((r : ℤ) * (r : ℤ) - 0 * 0).toNat = r * r := by
    push_cast
    omega
  rw [htn, rsqrtHalfUp_sq]
  have hj1 : r - r = 0 := by omega
  rw [hj1]
  apply List.mem_map.mpr
  refine ⟨r, ?_, ?_⟩
  · apply List.mem_range.mpr
    have hr : k / 2 < k := Nat.div_lt_self (by omega) (by norm_num)
    omega
  · simp

theorem center_mem_ellipseOffsets (k : ℕ) (hk : 1 ≤ k) :
    ((0 : ℤ), (0 : ℤ)) ∈ ellipseOffsets k := by
  unfold ellipseOffsets
  have hr : k / 2 < k := Nat.div_lt_self (by omega) (by norm_num)
  exact mem_foldr_append (ellipseRow k) (List.range k) (k / 2) (List.mem_range.mpr hr) _
    (center_mem_ellipseRow k hk)

theorem foldr_max_ge {α : Type} (f : α → ℕ) (l : List α) (a : α) (ha : a ∈ l) (init : ℕ) :
    f a ≤ l.foldr (fun o acc => max (f o) acc) init := by
  induction l with
  | nil => cases ha
  | cons c cs ih =>
    rcases List.mem_cons.mp ha with hac | has
    · subst hac
      exact le_max_left _ _
    · exact le_trans (ih has) (le_max_right _ _)

theorem foldr_max_le {α : Type} (f : α → ℕ) (l : List α) (B : ℕ)
    (hf : ∀ a ∈ l, f a ≤ B) (init : ℕ) (hi : init ≤ B) :
    l.foldr (fun o acc => max (f o) acc) init ≤ B := by
  induction l with
  | nil => exact hi
  | cons c cs ih =>
    apply max_le (hf c (by simp))
    exact ih (fun a ha => hf a (List.mem_cons_of_mem c ha))

theorem pxZero_le (m : GrayImg) (B : ℕ) (hm : ∀ a b, m.px a b ≤ B) (y x : ℤ) :
    pxZero m y x ≤ B := by
  unfold pxZero
  split
  · exact hm _ _
  · exact Nat.zero_le B

theorem dilateK_px (offs : List (ℤ × ℤ)) (m : GrayImg) (y x : ℕ)
    (hy : y < m.h) (hx : x < m.w) (h0 : ((0 : ℤ), (0 : ℤ)) ∈ offs)
    (hb : ∀ a b, m.px a b ≤ 255) (hm : m.px y x = 255) :
    (dilateK offs m).px y x = 255 := by
  unfold dilateK
  rw [mkGray_px _ _ _ y x hy hx]
  apply Nat.le_antisymm
  · apply foldr_max_le (fun o : ℤ × ℤ => pxZero m ((y : ℤ) + o.1) ((x : ℤ) + o.2))
    · intro a _
      exact pxZero_le m 255 hb _ _
    · exact Nat.zero_le 255
  · have hge := foldr_max_ge (fun o : ℤ × ℤ => pxZero m ((y : ℤ) + o.1) ((x : ℤ) + o.2)) offs
      ((0 : ℤ), (0 : ℤ)) h0 0
    have hcenter : pxZero m (y : ℤ) (x : ℤ) = 255 := by
      unfold pxZero
      rw [if_pos ⟨by positivity, by exact_mod_cast hy, by positivity, by exact_mod_cast hx⟩]
      simpa using hm
    simpa [hcenter] using hge

theorem dilateK_px_le (offs : List (ℤ × ℤ)) (m : GrayImg)
    (hb : ∀ a b, m.px a b ≤ 255) (y x : ℕ) : (dilateK offs m).px y x ≤ 255 := by
  unfold dilateK
  apply mkGray_px_le
  intro y x
  apply foldr_max_le (fun o : ℤ × ℤ => pxZero m ((y : ℤ) + o.1) ((x : ℤ) + o.2))
  · intro a _
    exact pxZero_le m 255 hb _ _
  · exact Nat.zero_le 255

theorem iterDilate_px (offs : List (ℤ × ℤ)) (h0 : ((0 : ℤ), (0 : ℤ)) ∈ offs) :
    ∀ (n : ℕ) (m : GrayImg) (y x : ℕ), y < m.h → x < m.w →
    (∀ a b, m.px a b ≤ 255) → m.px y x = 255 →
    (iterDilate offs n m).px y x = 255 := by
  intro n
  induction n with
  | zero => intro m y x _ _ _ hm; exact hm
  | succ n ih =>
    intro m y x hy hx hb hm
    unfold iterDilate
    exact ih (dilateK offs m) y x hy hx (dilateK_px_le offs m hb)
      (dilateK_px offs m y x hy hx h0 hb hm)

theorem thresholdBin_px_le (t : ℕ) (m : GrayImg) (y x : ℕ) :
    (thresholdBin t 255 m).px y x ≤ 255 := by
  unfold thresholdBin
  apply mkGray_px_le
  intro y x
  split <;> omega

/-! ## Claim theorems -/

/-- C1 (amended): for a nonpositive offset `generate_offset_contour` returns
the input mask unchanged (foreground equal), and for any mask and offset the
dilation stage is monotone: every foreground pixel of the pre-smoothed mask
is foreground after the elliptical dilation. The full positive-offset
pipeline, however, keeps only the filled largest external contour, so the
returned mask need not contain the input mask's foreground (see the
counterexample), and the chained `cutting ⊇ print ⊇ original` containment is
not guaranteed either. -/
theorem C1_offset_monotonicity :
    (∀ (mask : GrayImg) (offset_px sf : ℚ), offset_px ≤ 0 →
      (findContours mask).isEmpty = false →
      generate_offset_contour mask offset_px sf = some (mainContour (findContours mask), mask)) ∧
    (∀ (mask : GrayImg) (offset_px : ℚ) (y x : ℕ), y < mask.h → x < mask.w →
      (preSmooth mask).px y x = 255 → (expandStage mask offset_px).px y x = 255) := by
  constructor
  · intro mask offset_px sf hoff hne
    unfold generate_offset_contour
    rw [if_pos hoff]
    dsimp only
    rw [hne]
    rfl
  · intro mask offset_px y x hy hx hpre
    unfold expandStage
    apply iterDilate_px
    · apply center_mem_ellipseOffsets
      have : 3 ≤ offsetKernelSize offset_px := le_max_left 3 _
      omega
    · exact hy
    · exact hx
    · intro a b
      exact thresholdBin_px_le 127 _ a b
    · exact hpre

/-- C2 (amended): `analyze_image` never falls back to Otsu thresholding for
images without an alpha channel: grayscale images always, and colour images
whose corner sampling fails, get the fabricated full-rectangle metrics
(area w·h, perimeter 2(w+h), vertex count 4, circularity round(π/4, 4),
fill ratio 1, complexity 0). The Otsu fallback with majority-vote inversion
lives only in `_create_mask`, which the analysis path does not reach for
such images. -/
theorem C2_no_otsu_in_analysis :
    (∀ g : GrayImg, analyze_image (.gray g) = some (rectangleMetrics g.w g.h)) ∧
    (∀ c : ColorImg, _create_mask_by_corner_sampling c = none →
      analyze_image (.color c) = some (rectangleMetrics c.w c.h)) := by
  constructor
  · intro g
    rfl
  · intro c h
    unfold analyze_image
    dsimp only
    rw [h]

/-- C2 witness for the amended theorem: a 10×10 colour image is too small
for corner sampling, and analysis returns the 10×10 rectangle record. -/
theorem C2_no_otsu_witness :
    _create_mask_by_corner_sampling c8tiny = none ∧
    analyze_image (.color c8tiny) = some (rectangleMetrics 10 10) := by
  constructor
  · with_unfolding_all rfl
  · exact C2_no_otsu_in_analysis.2 c8tiny (by with_unfolding_all rfl)

/-- C5 (confirmed): `convert_to_mm` computes the scale as the average of the
two axis ratios, scales the area by scale squared and the perimeter by
scale (each rounded to 2 decimals), and with `target = bbox` (scale 1) the
area in mm² equals the pixel area up to that rounding (within 1/200). -/
theorem C5_convert_to_mm_scale (m : ShapeMetrics) (tw th : ℚ)
    (hbw : 0 < m.bounding_box_px.1) (hbh : 0 < m.bounding_box_px.2) :
    (convert_to_mm m tw th).area_mm2 =
      pyRound (m.contour_area_px *
        ((tw / (m.bounding_box_px.1 : ℚ) + th / (m.bounding_box_px.2 : ℚ)) / 2) *
        ((tw / (m.bounding_box_px.1 : ℚ) + th / (m.bounding_box_px.2 : ℚ)) / 2)) 2 ∧
    (convert_to_mm m tw th).perimeter_mm =
      pyRound (m.contour_perimeter_px *
        ((tw / (m.bounding_box_px.1 : ℚ) + th / (m.bounding_box_px.2 : ℚ)) / 2)) 2 ∧
    (tw = (m.bounding_box_px.1 : ℚ) → th = (m.bounding_box_px.2 : ℚ) →
      (convert_to_mm m tw th).area_mm2 = pyRound m.contour_area_px 2 ∧
      |(convert_to_mm m tw th).area_mm2 - m.contour_area_px| ≤ 1/200) := by
  have hbw' : ((m.bounding_box_px.1 : ℚ)) ≠ 0 := by
    exact_mod_cast Nat.pos_iff_ne_zero.mp hbw
  have hbh' : ((m.bounding_box_px.2 : ℚ)) ≠ 0 := by
    exact_mod_cast Nat.pos_iff_ne_zero.mp hbh
  unfold convert_to_mm
  dsimp only
  rw [if_pos hbw, if_pos hbh]
  refine ⟨rfl, rfl, ?_⟩
  intro h1 h2
  have hscale : (tw / (m.bounding_box_px.1 : ℚ) + th / (m.bounding_box_px.2 : ℚ)) / 2 = 1 := by
    rw [h1, h2, div_self hbw', div_self hbh']
    norm_num
  rw [hscale]
  constructor
  · norm_num
  · have := abs_pyRound_sub m.contour_area_px 2
    calc |pyRound (m.contour_area_px * 1 * 1) 2 - m.contour_area_px|
        = |pyRound m.contour_area_px 2 - m.contour_area_px| := by norm_num
      _ ≤ 1 / (2 * 10 ^ 2) := this
      _ ≤ 1/200 := by norm_num

/-- C5 witness: a concrete record with bounding box (10, 20), converted with
targets equal to the box, keeps its area (50.0) exactly. -/
theorem C5_convert_witness :
    (0 < c5metrics.bounding_box_px.1 ∧ 0 < c5metrics.bounding_box_px.2) ∧
    (convert_to_mm c5metrics 10 20).area_mm2 = pyRound c5metrics.contour_area_px 2 ∧
    |(convert_to_mm c5metrics 10 20).area_mm2 - c5metrics.contour_area_px| ≤ 1/200 :=
  ⟨⟨by norm_num [c5metrics], by norm_num [c5metrics]⟩,
    (C5_convert_to_mm_scale c5metrics 10 20 (by norm_num [c5metrics])
      (by norm_num [c5metrics])).2.2 (by norm_num [c5metrics]) (by norm_num [c5metrics])⟩

/-- C10 (confirmed): `convert_to_mm` assigns only the four millimetre fields
and leaves every pixel-space field of the record unchanged (the in-place
Python mutation is modelled by the returned record differing from the input
in at most those four fields). -/
theorem C10_convert_frame (m : ShapeMetrics) (tw th : ℚ) :
    (convert_to_mm m tw th).contour_area_px = m.contour_area_px ∧
    (convert_to_mm m tw th).contour_perimeter_px = m.contour_perimeter_px ∧
    (convert_to_mm m tw th).bounding_box_px = m.bounding_box_px ∧
    (convert_to_mm m tw th).vertex_count = m.vertex_count ∧
    (convert_to_mm m tw th).circularity = m.circularity ∧
    (convert_to_mm m tw th).fill_ratio = m.fill_ratio ∧
    (convert_to_mm m tw th).complexity_score = m.complexity_score ∧
    (convert_to_mm m tw th).outline_length_score = m.outline_length_score ∧
    (convert_to_mm m tw th).direction_change_score = m.direction_change_score ∧
    convert_to_mm m tw th = { m with
      area_mm2 := (convert_to_mm m tw th).area_mm2,
      perimeter_mm := (convert_to_mm m tw th).perimeter_mm,
      bbox_width_mm := (convert_to_mm m tw th).bbox_width_mm,
      bbox_height_mm := (convert_to_mm m tw th).bbox_height_mm } :=
  ⟨rfl, rfl, rfl, rfl, rfl, rfl, rfl, rfl, rfl, rfl⟩

/-- C9 (confirmed): whatever the GrabCut collaborator returns (including a
raised exception, modelled by `none`), `_refine_mask_in_region` either
returns the raw polygon region mask unchanged, or GrabCut succeeded, its
foreground is at least 10% of the region's, and the result is that refined
mask (after the 3×3 closing the source applies). The float 0.1 is read as
the rational 1/10. -/
theorem C9_grabcut_policy (grabCut : ColorImg → GrayImg → Option GrayImg)
    (bgr : ColorImg) (region_mask : GrayImg) :
    _refine_mask_in_region grabCut bgr region_mask = region_mask ∨
    (∃ refined, grabCutRefined grabCut bgr region_mask = some refined ∧
      (countNonzero region_mask : ℚ) * 0.1 ≤ (countNonzero refined : ℚ) ∧
      _refine_mask_in_region grabCut bgr region_mask =
        morphClose (ellipseOffsets 3) refined) := by
  unfold _refine_mask_in_region
  cases hgc : grabCutRefined grabCut bgr region_mask with
  | none => exact Or.inl rfl
  | some refined =>
    dsimp only
    by_cases harea : (countNonzero refined : ℚ) < (countNonzero region_mask : ℚ) * 0.1
    · rw [if_pos harea]
      exact Or.inl rfl
    · rw [if_neg harea]
      exact Or.inr ⟨refined, rfl, le_of_not_lt harea, rfl⟩

/-- C8 (confirmed): corner sampling returns a mask only when the dominant
quantised corner colour covers at least half the sampled pixels and the
despeckled distance mask's foreground share lies in [1%, 95]; images under
20 pixels in either dimension, and every other failing case, yield `None`. -/
theorem C8_corner_sampling_policy :
    (∀ img : ColorImg, img.h < 20 ∨ img.w < 20 →
      _create_mask_by_corner_sampling img = none) ∧
    (∀ (img : ColorImg) (m : GrayImg), _create_mask_by_corner_sampling img = some m →
      20 ≤ img.h ∧ 20 ≤ img.w ∧ 1/2 ≤ cornerDominantRatio img ∧
      m = cornerCandidateMask img ∧
      1/100 ≤ maskFgRatio m ∧ maskFgRatio m ≤ 95/100) := by
  constructor
  · intro img h
    unfold _create_mask_by_corner_sampling
    rw [if_pos]
    exact h
  · intro img m h
    unfold _create_mask_by_corner_sampling at h
    dsimp only at h
    split_ifs at h with h1 h2 h3
    injection h with h4
    push_neg at h1
    push_neg at h3
    subst h4
    exact ⟨h1.1, h1.2, le_of_not_lt h2, rfl, h3.1, h3.2⟩

/-- C6 (amended): the ring-hole centre sits outside the selected bounding-box
edge at distance `int(edge_distance_px) + int(hole_diameter_px / 2)` (the
radius is that truncated half-diameter), and for position "top" the centre's
y-coordinate is strictly above the box's top edge whenever that truncated
distance is at least one pixel (true for any realistic configuration; the
counterexample shows the sub-pixel degenerate case landing exactly on the
edge). -/
theorem C6_keyring_hole_placement (c : Contour) (position : String) (d e : ℚ) :
    ((_calculate_keyring_hole c "top" d e).1.2 =
      (boundingRect c).y - (pyInt e + pyInt (d / 2))) ∧
    ((_calculate_keyring_hole c "bottom" d e).1.2 =
      (boundingRect c).y + ((boundingRect c).bh : ℤ) + (pyInt e + pyInt (d / 2))) ∧
    ((_calculate_keyring_hole c "left" d e).1.1 =
      (boundingRect c).x - (pyInt e + pyInt (d / 2))) ∧
    ((_calculate_keyring_hole c "right" d e).1.1 =
      (boundingRect c).x + ((boundingRect c).bw : ℤ) + (pyInt e + pyInt (d / 2))) ∧
    ((_calculate_keyring_hole c position d e).2 = pyInt (d / 2)) ∧
    (1 ≤ pyInt e + pyInt (d / 2) →
      (_calculate_keyring_hole c "top" d e).1.2 < (boundingRect c).y) := by
  refine ⟨?_, ?_, ?_, ?_, ?_, ?_⟩
  · simp only [_calculate_keyring_hole]
    norm_num
    ring
  · simp only [_calculate_keyring_hole]
    rw [if_neg (by decide)]
    norm_num
    ring
  · simp only [_calculate_keyring_hole]
    rw [if_neg (by decide), if_neg (by decide)]
    norm_num
    ring
  · simp only [_calculate_keyring_hole]
    rw [if_neg (by decide), if_neg (by decide), if_neg (by decide)]
    norm_num
    ring
  · simp only [_calculate_keyring_hole]
  · intro h1
    simp only [_calculate_keyring_hole]
    norm_num
    omega

/-- C7 (amended): the internal-hole centre is clamped into
`[hw+2, w-hw-2] × [hh+2, h-hh-2]` whenever those intervals are nonempty,
that is, whenever the image is at least `2·hw+4` by `2·hh+4` pixels (the
counterexample shows the clamp landing outside the upper bound on a smaller
image). -/
theorem C7_internal_hole_clamp (c : Contour) (mask : GrayImg) (position : String)
    (hole_w_px hole_h_px e : ℚ)
    (h1 : pyInt (hole_w_px / 2) + 2 ≤ (mask.w : ℤ) - pyInt (hole_w_px / 2) - 2)
    (h2 : pyInt (hole_h_px / 2) + 2 ≤ (mask.h : ℤ) - pyInt (hole_h_px / 2) - 2) :
    pyInt (hole_w_px / 2) + 2 ≤
        (_calculate_internal_hole c mask position hole_w_px hole_h_px e).1.1 ∧
    (_calculate_internal_hole c mask position hole_w_px hole_h_px e).1.1 ≤
        (mask.w : ℤ) - pyInt (hole_w_px / 2) - 2 ∧
    pyInt (hole_h_px / 2) + 2 ≤
        (_calculate_internal_hole c mask position hole_w_px hole_h_px e).1.2 ∧
    (_calculate_internal_hole c mask position hole_w_px hole_h_px e).1.2 ≤
        (mask.h : ℤ) - pyInt (hole_h_px / 2) - 2 := by
  unfold _calculate_internal_hole
  dsimp only
  refine ⟨le_max_left _ _, ?_, le_max_left _ _, ?_⟩
  · exact max_le h1 (min_le_left _ _)
  · exact max_le h2 (min_le_left _ _)

/-- C7 witness: a 4×4 hole one pixel from the top edge of a 40×40 mask stays
within the claimed box. -/
theorem C7_internal_hole_witness :
    (pyInt ((4 : ℚ) / 2) + 2 ≤ (40 : ℤ) - pyInt ((4 : ℚ) / 2) - 2) ∧
    (_calculate_internal_hole cexHoleContour (mkGray 40 40 (fun _ _ => 0)) "top" 4 4 1).1.1 ≤
      (40 : ℤ) - pyInt ((4 : ℚ) / 2) - 2 := by
  have hpy : pyInt ((4 : ℚ) / 2) = 2 := by with_unfolding_all rfl
  have hb : (pyInt ((4 : ℚ) / 2) + 2 ≤ (40 : ℤ) - pyInt ((4 : ℚ) / 2) - 2) := by
    rw [hpy]; norm_num
  refine ⟨hb, ?_⟩
  exact (C7_internal_hole_clamp cexHoleContour (mkGray 40 40 (fun _ _ => 0)) "top" 4 4 1
    hb hb).2.1

/-- C6 witness: with the 4 mm diameter and 3 mm edge distance defaults at
scale 1, the truncated distance is 5 ≥ 1 and the top-position hole centre
lies strictly above the box. -/
theorem C6_keyring_hole_witness :
    (1 ≤ pyInt (3 : ℚ) + pyInt ((4 : ℚ) / 2)) ∧
    (_calculate_keyring_hole cexHoleContour "top" 4 3).1.2 < (boundingRect cexHoleContour).y := by
  have h1 : (1 ≤ pyInt (3 : ℚ) + pyInt ((4 : ℚ) / 2)) := by
    have : pyInt (3 : ℚ) = 3 := by with_unfolding_all rfl
    have h2 : pyInt ((4 : ℚ) / 2) = 2 := by with_unfolding_all rfl
    omega
  exact ⟨h1, (C6_keyring_hole_placement cexHoleContour "top" 4 3).2.2.2.2.2 h1⟩

theorem contourArea_nonneg (c : Contour) : 0 ≤ contourArea c := by
  unfold contourArea
  positivity

theorem acute_ratio_nonneg (pts : List (ℤ × ℤ)) : 0 ≤ _calculate_acute_ratio pts := by
  unfold _calculate_acute_ratio
  dsimp only
  split
  · exact le_refl 0
  · positivity

theorem rawFillRatio_nonneg (contours : List Contour) : 0 ≤ rawFillRatio contours := by
  unfold rawFillRatio
  dsimp only
  split
  · exact div_nonneg (contourArea_nonneg _) (by positivity)
  · exact le_refl 0

theorem rawFillRatio_le_one (contours : List Contour)
    (hgeom : contourArea (mainContour contours) ≤
      (((boundingRect (mainContour contours)).bw *
        (boundingRect (mainContour contours)).bh : ℕ) : ℚ)) :
    rawFillRatio contours ≤ 1 := by
  unfold rawFillRatio
  dsimp only
  split
  · rename_i hpos
    rw [div_le_one hpos]
    exact hgeom
  · exact zero_le_one

theorem calculate_complexity_bounds (v : ℕ) (p a ar : ℚ) (c : Contour) (har : 0 ≤ ar) :
    (0 ≤ (_calculate_complexity v p a ar c).1 ∧ (_calculate_complexity v p a ar c).1 ≤ 1) ∧
    (0 ≤ (_calculate_complexity v p a ar c).2.1 ∧ (_calculate_complexity v p a ar c).2.1 ≤ 1) ∧
    (0 ≤ (_calculate_complexity v p a ar c).2.2 ∧ (_calculate_complexity v p a ar c).2.2 ≤ 1) := by
  unfold _calculate_complexity
  dsimp only
  have hol1 : (0:ℚ) ≤ max ((p / (if 0 < (boundingRect c).bw + (boundingRect c).bh then
      ((2 * ((boundingRect c).bw + (boundingRect c).bh) : ℕ) : ℚ) else 1) - 1) / 1) 0 :=
    le_max_right _ _
  have hvn1 : (0:ℚ) ≤ max (((v : ℚ) - 4) / 32) 0 := le_max_right _ _
  have hvle : min (max (((v : ℚ) - 4) / 32) 0) 1 ≤ 1 := min_le_right _ _
  have hvge : (0:ℚ) ≤ min (max (((v : ℚ) - 4) / 32) 0) 1 := le_min hvn1 zero_le_one
  have hage : (0:ℚ) ≤ min ar 1 := le_min har zero_le_one
  have hale : min ar 1 ≤ 1 := min_le_right _ _
  refine ⟨⟨le_min (le_max_right _ _) zero_le_one, min_le_right _ _⟩,
    ⟨le_min hol1 zero_le_one, min_le_right _ _⟩, ⟨?_, ?_⟩⟩
  · have := mul_nonneg hvge (by norm_num : (0:ℚ) ≤ 0.6)
    have := mul_nonneg hage (by norm_num : (0:ℚ) ≤ 0.4)
    linarith
  · nlinarith [hvge, hvle, hage, hale]

theorem analyzeContours_bounds (contours : List Contour) (M : ShapeMetrics)
    (h : _analyze_contours contours = some M)
    (hgeom : contourArea (mainContour contours) ≤
      (((boundingRect (mainContour contours)).bw *
        (boundingRect (mainContour contours)).bh : ℕ) : ℚ)) :
    (0 ≤ M.circularity ∧ M.circularity ≤ 1 ∧ isRounded4 M.circularity) ∧
    (0 ≤ M.fill_ratio ∧ M.fill_ratio ≤ 1 ∧ isRounded4 M.fill_ratio) ∧
    (0 ≤ M.complexity_score ∧ M.complexity_score ≤ 1 ∧ isRounded4 M.complexity_score) ∧
    (0 ≤ M.outline_length_score ∧ M.outline_length_score ≤ 1 ∧
      isRounded4 M.outline_length_score) ∧
    (0 ≤ M.direction_change_score ∧ M.direction_change_score ≤ 1 ∧
      isRounded4 M.direction_change_score) := by
  have hfill0 := rawFillRatio_nonneg contours
  have hfill1 := rawFillRatio_le_one contours hgeom
  unfold _analyze_contours at h
  dsimp only at h
  rcases lt_or_ge (contourArea (mainContour contours)) 100 with harea | harea
  · rw [if_pos harea] at h
    exact absurd h (by simp)
  rw [if_neg (not_lt.mpr harea)] at h
  by_cases hfill : (0.95 : ℚ) < rawFillRatio contours
  · -- fill_ratio > 0.95: the rectangle override
    rw [if_pos hfill] at h
    injection h with hR
    subst hR
    dsimp only
    have hpi0 : (0:ℚ) ≤ mathPi / 4 := by norm_num [mathPi]
    have hpi1 : mathPi / 4 ≤ 1 := by norm_num [mathPi]
    exact ⟨⟨pyRound_nonneg _ _ hpi0, pyRound_le_one _ _ hpi1, pyRound_isRounded4 _⟩,
      ⟨pyRound_nonneg _ _ hfill0, pyRound_le_one _ _ hfill1, pyRound_isRounded4 _⟩,
      ⟨pyRound_nonneg _ _ (le_refl 0), pyRound_le_one _ _ zero_le_one, pyRound_isRounded4 _⟩,
      ⟨pyRound_nonneg _ _ (le_refl 0), pyRound_le_one _ _ zero_le_one, pyRound_isRounded4 _⟩,
      ⟨pyRound_nonneg _ _ (le_refl 0), pyRound_le_one _ _ zero_le_one, pyRound_isRounded4 _⟩⟩
  · -- the measured branch
    rw [if_neg hfill] at h
    injection h with hR
    subst hR
    dsimp only
    have hcirc0 : (0:ℚ) ≤ min (if 0 < arcLength (mainContour contours) then
        4 * mathPi * contourArea (mainContour contours) /
          (arcLength (mainContour contours) * arcLength (mainContour contours)) else 0) 1 := by
      apply le_min _ zero_le_one
      split
      · rename_i hp
        have h4pi : (0:ℚ) ≤ 4 * mathPi := by norm_num [mathPi]
        exact div_nonneg (mul_nonneg h4pi (contourArea_nonneg _)) (by positivity)
      · exact le_refl 0
    have hcirc1 : min (if 0 < arcLength (mainContour contours) then
        4 * mathPi * contourArea (mainContour contours) /
          (arcLength (mainContour contours) * arcLength (mainContour contours)) else 0) 1
        ≤ 1 := min_le_right _ _
    have hc := calculate_complexity_bounds
      (approxPolyDP (mainContour contours) (0.01 * arcLength (mainContour contours))).length
      (arcLength (mainContour contours)) (contourArea (mainContour contours))
      (_calculate_acute_ratio
        (approxPolyDP (mainContour contours) (0.01 * arcLength (mainContour contours))))
      (mainContour contours)
      (acute_ratio_nonneg _)
    exact ⟨⟨pyRound_nonneg _ _ hcirc0, pyRound_le_one _ _ hcirc1, pyRound_isRounded4 _⟩,
      ⟨pyRound_nonneg _ _ hfill0, pyRound_le_one _ _ hfill1, pyRound_isRounded4 _⟩,
      ⟨pyRound_nonneg _ _ hc.1.1, pyRound_le_one _ _ hc.1.2, pyRound_isRounded4 _⟩,
      ⟨pyRound_nonneg _ _ hc.2.1.1, pyRound_le_one _ _ hc.2.1.2, pyRound_isRounded4 _⟩,
      ⟨pyRound_nonneg _ _ hc.2.2.1, pyRound_le_one _ _ hc.2.2.2, pyRound_isRounded4 _⟩⟩

/-- C4 (confirmed): whenever `analyze_from_mask` returns metrics (the largest
contour's enclosed area is at least 100 px²), the circularity, fill ratio,
complexity score and both sub-scores all lie in [0, 1] and are 4-decimal
values. The side hypothesis states the standard polygon-geometry fact that
the traced boundary's enclosed area is at most its bounding-box area; it
holds for every contour border following produces, and is checked
concretely in the witness. -/
theorem C4_scores_bounded (mask : GrayImg) (M : ShapeMetrics)
    (hM : analyze_from_mask mask = some M)
    (hgeom : contourArea (mainContour (findContours mask)) ≤
      (((boundingRect (mainContour (findContours mask))).bw *
        (boundingRect (mainContour (findContours mask))).bh : ℕ) : ℚ)) :
    (0 ≤ M.circularity ∧ M.circularity ≤ 1 ∧ isRounded4 M.circularity) ∧
    (0 ≤ M.fill_ratio ∧ M.fill_ratio ≤ 1 ∧ isRounded4 M.fill_ratio) ∧
    (0 ≤ M.complexity_score ∧ M.complexity_score ≤ 1 ∧ isRounded4 M.complexity_score) ∧
    (0 ≤ M.outline_length_score ∧ M.outline_length_score ≤ 1 ∧
      isRounded4 M.outline_length_score) ∧
    (0 ≤ M.direction_change_score ∧ M.direction_change_score ≤ 1 ∧
      isRounded4 M.direction_change_score) := by
  unfold analyze_from_mask at hM
  by_cases h0 : mask.h * mask.w = 0
  · rw [if_pos h0] at hM
    exact absurd hM (by simp)
  · rw [if_neg h0] at hM
    dsimp only at hM
    by_cases hemp : (findContours mask).isEmpty = true
    · rw [if_pos hemp] at hM
      exact absurd hM (by simp)
    · rw [if_neg hemp] at hM
      exact analyzeContours_bounds (findContours mask) M hM hgeom

theorem pyRound_zero : pyRound 0 4 = 0 := by
  norm_num [pyRound, rndHalfEven]

theorem mainContour_single (c : Contour) : mainContour [c] = c := rfl

theorem contourArea_rect (w h : ℕ) (hw : 1 ≤ w) (hh : 1 ≤ h) :
    contourArea (rectContour w h) = (((w - 1) * (h - 1) : ℕ) : ℚ) := by
  unfold contourArea rectContour
  simp only [List.length_cons, List.length_nil]
  rw [show List.range 4 = [0, 1, 2, 3] from rfl]
  simp only [List.foldl, List.getD]
  norm_num
  have hs : (-(((w:ℤ) - 1) * ((h:ℤ) - 1)) + -(((w:ℤ) - 1) * ((h:ℤ) - 1)))
      = -((2 * ((w - 1) * (h - 1)) : ℕ) : ℤ) := by
    have hcw : ((w : ℤ) - 1) = ((w - 1 : ℕ) : ℤ) := by omega
    have hch : ((h : ℤ) - 1) = ((h - 1 : ℕ) : ℤ) := by omega
    rw [hcw, hch]
    push_cast
    ring
  rw [hs, Int.natAbs_neg, Int.natAbs_ofNat]
  push_cast
  ring

theorem arcLength_rect (w h : ℕ) (hw : 1 ≤ w) (hh : 1 ≤ h) :
    arcLength (rectContour w h) = ((2 * (w - 1) + 2 * (h - 1) : ℕ) : ℚ) := by
  unfold arcLength rectContour
  simp only [List.length_cons, List.length_nil]
  rw [show List.range 4 = [0, 1, 2, 3] from rfl]
  simp only [List.foldl, List.getD]
  norm_num
  have e1 : ((h:ℚ) - 1) ^ 2 = (((h - 1 : ℕ) : ℚ)) ^ 2 := by
    rw [Nat.cast_sub hh]; norm_num
  have e2 : ((w:ℚ) - 1) ^ 2 = (((w - 1 : ℕ) : ℚ)) ^ 2 := by
    rw [Nat.cast_sub hw]; norm_num
  have e3 : ((1 : ℚ) - h) ^ 2 = (((h - 1 : ℕ) : ℚ)) ^ 2 := by
    rw [Nat.cast_sub hh]; ring
  have e4 : ((1 : ℚ) - w) ^ 2 = (((w - 1 : ℕ) : ℚ)) ^ 2 := by
    rw [Nat.cast_sub hw]; ring
  rw [e1, e2, e3, e4, ratSqrt_natCast_sq, ratSqrt_natCast_sq]
  ring

theorem boundingRect_rect (w h : ℕ) (hw : 1 ≤ w) (hh : 1 ≤ h) :
    boundingRect (rectContour w h) = ⟨0, 0, w, h⟩ := by
  unfold boundingRect rectContour
  dsimp only
  simp only [List.foldl]
  rw [BRect.mk.injEq]
  refine ⟨?_, ?_, ?_, ?_⟩ <;> omega

/-- C3 (amended): whenever the measured fill ratio exceeds 0.95, the returned
metrics carry vertex count 4, circularity round(π/4, 4) and zero complexity
and sub-scores; and for a perfect w×h rectangle mask large enough for the
override to apply, the analysis yields exactly vertex count 4, zero
complexity, area (w-1)(h-1), perimeter 2(w-1)+2(h-1) and fill ratio
round((w-1)(h-1)/(w·h), 4) — which is strictly below 1.0 for all realistic
sizes (the counterexample shows 0.8403 on a full 12×12 mask), not the 1.0
the claim states. -/
theorem C3_rectangle_override :
    (∀ (contours : List Contour) (M : ShapeMetrics),
      _analyze_contours contours = some M → (0.95 : ℚ) < rawFillRatio contours →
      M.vertex_count = 4 ∧ M.circularity = pyRound (mathPi / 4) 4 ∧
      M.complexity_score = 0 ∧ M.outline_length_score = 0 ∧
      M.direction_change_score = 0) ∧
    (∀ w h : ℕ, 21 ≤ w → 21 ≤ h → 19 * (w * h) < 20 * ((w - 1) * (h - 1)) →
      _analyze_contours [rectContour w h] = some
        { contour_area_px := (((w - 1) * (h - 1) : ℕ) : ℚ),
          contour_perimeter_px := ((2 * (w - 1) + 2 * (h - 1) : ℕ) : ℚ),
          bounding_box_px := (w, h), vertex_count := 4,
          circularity := pyRound (mathPi / 4) 4,
          fill_ratio := pyRound ((((w - 1) * (h - 1) : ℕ) : ℚ) / ((w * h : ℕ) : ℚ)) 4,
          complexity_score := 0, outline_length_score := 0,
          direction_change_score := 0 }) := by
  have hmain : ∀ (contours : List Contour) (M : ShapeMetrics),
      _analyze_contours contours = some M → (0.95 : ℚ) < rawFillRatio contours →
      M.vertex_count = 4 ∧ M.circularity = pyRound (mathPi / 4) 4 ∧
      M.complexity_score = 0 ∧ M.outline_length_score = 0 ∧
      M.direction_change_score = 0 := by
    intro contours M h hfill
    unfold _analyze_contours at h
    dsimp only at h
    rcases lt_or_ge (contourArea (mainContour contours)) 100 with harea | harea
    · rw [if_pos harea] at h
      exact absurd h (by simp)
    · rw [if_neg (not_lt.mpr harea), if_pos hfill] at h
      injection h with hR
      subst hR
      exact ⟨rfl, rfl, pyRound_zero, pyRound_zero, pyRound_zero⟩
  refine ⟨hmain, ?_⟩
  intro w h hw hh hineq
  have hw1 : 1 ≤ w := by omega
  have hh1 : 1 ≤ h := by omega
  have harea := contourArea_rect w h hw1 hh1
  have harc := arcLength_rect w h hw1 hh1
  have hbr := boundingRect_rect w h hw1 hh1
  have hwh : (0 : ℚ) < ((w * h : ℕ) : ℚ) := by
    have : 0 < w * h := by positivity
    exact_mod_cast this
  have hfillval : rawFillRatio [rectContour w h]
      = (((w - 1) * (h - 1) : ℕ) : ℚ) / ((w * h : ℕ) : ℚ) := by
    unfold rawFillRatio
    dsimp only
    rw [mainContour_single, hbr, harea]
    rw [if_pos hwh]
  have hover : (0.95 : ℚ) < rawFillRatio [rectContour w h] := by
    rw [hfillval, show (0.95 : ℚ) = 19/20 by norm_num,
      div_lt_div_iff₀ (by norm_num) hwh]
    have hq : (19 : ℚ) * ((w * h : ℕ) : ℚ) < 20 * (((w - 1) * (h - 1) : ℕ) : ℚ) := by
      exact_mod_cast hineq
    linarith
  have hbig : ¬ (contourArea (mainContour [rectContour w h]) < 100) := by
    rw [mainContour_single, harea]
    have h400 : 20 * 20 ≤ (w - 1) * (h - 1) :=
      Nat.mul_le_mul (by omega : 20 ≤ w - 1) (by omega : 20 ≤ h - 1)
    push_neg
    calc (100 : ℚ) ≤ 400 := by norm_num
      _ ≤ (((w - 1) * (h - 1) : ℕ) : ℚ) := by
        calc (400 : ℚ) = ((20 * 20 : ℕ) : ℚ) := by norm_num
          _ ≤ _ := by exact_mod_cast h400
  unfold _analyze_contours
  dsimp only
  rw [if_neg hbig, if_pos hover, mainContour_single, harea, harc, hbr, hfillval]
  rw [show pyRound 0 4 = 0 from pyRound_zero]

set_option maxHeartbeats 4000000 in
/-- C4 witness: a 16×16 mask with a 12×12 block; the analysis yields the
concrete record `c4metrics` and all five scores sit in [0,1] rounded to 4
decimals (the geometric hypothesis — the contour's area is at most its
bounding box's — holds with 121 ≤ 144). -/
theorem C4_scores_witness :
    (analyze_from_mask c4mask = some c4metrics ∧
      contourArea (mainContour (findContours c4mask)) ≤
        (((boundingRect (mainContour (findContours c4mask))).bw *
          (boundingRect (mainContour (findContours c4mask))).bh : ℕ) : ℚ)) ∧
    (0 ≤ c4metrics.circularity ∧ c4metrics.circularity ≤ 1 ∧
      isRounded4 c4metrics.circularity) ∧
    (0 ≤ c4metrics.fill_ratio ∧ c4metrics.fill_ratio ≤ 1 ∧
      isRounded4 c4metrics.fill_ratio) := by
  have hM : analyze_from_mask c4mask = some c4metrics := by with_unfolding_all rfl
  have hgeom : contourArea (mainContour (findContours c4mask)) ≤
      (((boundingRect (mainContour (findContours c4mask))).bw *
        (boundingRect (mainContour (findContours c4mask))).bh : ℕ) : ℚ) := by
    have h1 : contourArea (mainContour (findContours c4mask)) = 121 := by
      with_unfolding_all rfl
    have h2 : (boundingRect (mainContour (findContours c4mask))).bw = 12 := by
      with_unfolding_all rfl
    have h3 : (boundingRect (mainContour (findContours c4mask))).bh = 12 := by
      with_unfolding_all rfl
    rw [h1, h2, h3]
    norm_num
  have hB := C4_scores_bounded c4mask c4metrics hM hgeom
  exact ⟨⟨hM, hgeom⟩, hB.1, hB.2.1⟩

set_option maxHeartbeats 4000000 in
/-- C1 counterexample: the mask `cexC1Mask` holds two components; pixel
(13,13) of the smaller one is foreground in the input, yet background in the
mask `generate_offset_contour` returns for a positive 2 px offset — the
function keeps only the largest contour and fills it, so the output is not a
superset of the input. -/
theorem C1_counterexample :
    cexC1Mask.px 13 13 = 255 ∧
    (generate_offset_contour cexC1Mask 2 (1/50)).map (fun p => p.2.px 13 13) = some 0 := by
  constructor
  · with_unfolding_all rfl
  · with_unfolding_all rfl


set_option maxHeartbeats 4000000 in
/-- C3 counterexample: a perfect 12×12 all-foreground rectangle mask yields
fill ratio 0.8403 — strictly below 1.0 and even below the 0.95 override
threshold — because `contourArea` measures (w-1)(h-1) against the full w·h
box. -/
theorem C3_counterexample :
    (analyze_from_mask cexC3Mask).map
      (fun M => (M.fill_ratio, M.vertex_count, M.complexity_score))
        = some (8403/10000, 4, 0) ∧
    (8403 : ℚ)/10000 < 1 := by
  constructor
  · with_unfolding_all rfl
  · norm_num

/-- C6 counterexample: with hole diameter 1 px and edge distance 0.9 px both
truncations are 0, so the "top" hole centre lands exactly on the bounding
box's top edge (y = 10), not strictly above it; and the offset distance is
int(0.9) + int(0.5) = 0, not the exact 0.9 + 0.5. -/
theorem C6_counterexample :
    (_calculate_keyring_hole cexHoleContour "top" 1 (9/10)).1.2 = 10 ∧
    (boundingRect cexHoleContour).y = 10 := by
  constructor
  · with_unfolding_all rfl
  · with_unfolding_all rfl

/-- C7 counterexample: a 4×4 hole on a 5×5 mask: the clamp's lower bound 4
exceeds its upper bound w - hw - 2 = 1, and the returned x-coordinate 4
leaves the hole extending past the image edge. -/
theorem C7_counterexample :
    (_calculate_internal_hole cexHoleContour cexTinyMask "top" 4 4 1).1.1 = 4 ∧
    (cexTinyMask.w : ℤ) - pyInt ((4 : ℚ)/2) - 2 = 1 := by
  constructor
  · with_unfolding_all rfl
  · with_unfolding_all rfl

theorem foldl_best_const (b : ℕ × ℚ) (l : List (ℕ × ℚ)) (h : ∀ e ∈ l, e.2 ≤ b.2) :
    l.foldl (fun b e => if b.2 < e.2 then e else b) b = b := by
  induction l generalizing b with
  | nil => rfl
  | cons a t ih =>
    simp only [List.foldl]
    rw [if_neg (not_lt.mpr (h a (by simp)))]
    exact ih b (fun e he => h e (by simp [he]))

theorem argmaxIdx_of_head_max (l : List ℚ) (h : ∀ x ∈ l, x ≤ l.headD 0) :
    argmaxIdx l = (0, l.headD 0) := by
  unfold argmaxIdx
  apply foldl_best_const
  intro e he
  rw [List.enum_eq_zip_range] at he
  exact h e.2 (List.of_mem_zip he).2

set_option maxHeartbeats 4000000 in
/-- C2 counterexample: on the grayscale image `cexC2Gray` (an 11×11 block of
intensity 200) the Otsu-mask reading of the spec measures the block's
contour (area 100 px²), but `analyze_image` returns the fabricated
full-image rectangle record (area 256 px²): the fallback is never Otsu. -/
theorem C2_counterexample :
    (metricsFromCreateMask (.gray cexC2Gray)).map (fun M => M.contour_area_px) = some 100 ∧
    (analyze_image (.gray cexC2Gray)).map (fun M => M.contour_area_px) = some 256 := by
  have hg : cexC2Gray = cexC2GrayLit := by
    with_unfolding_all rfl
  have hh : histogram cexC2Gray = cexC2Hist := by
    rw [hg]
    with_unfolding_all rfl
  have hsig : otsuSigmas cexC2Hist = cexC2Sigmas := by
    with_unfolding_all rfl
  have hhead : cexC2Sigmas.headD 0 = 653400000 := by with_unfolding_all rfl
  have hmax : ∀ x ∈ cexC2Sigmas, x ≤ cexC2Sigmas.headD 0 := by
    rw [hhead]
    intro x hx
    unfold cexC2Sigmas at hx
    rcases List.mem_map.mp hx with ⟨t, ht, rfl⟩
    split
    · norm_num
    · norm_num
  have harg : argmaxIdx cexC2Sigmas = (0, 653400000) := by
    rw [argmaxIdx_of_head_max cexC2Sigmas hmax, hhead]
  have hthr : otsuThreshold cexC2Gray = 0 := by
    unfold otsuThreshold
    rw [hh, hsig, harg]
  have hfb : otsuFallback cexC2Gray = cexC2Mask := by
    unfold otsuFallback otsuInvMask
    dsimp only
    rw [hthr]
    with_unfolding_all rfl
  have hcm : _create_mask (.gray cexC2Gray) = some cexC2Mask := by
    show some (otsuFallback cexC2Gray) = some cexC2Mask
    exact congrArg some hfb
  constructor
  · unfold metricsFromCreateMask
    rw [hcm]
    with_unfolding_all rfl
  · with_unfolding_all rfl
